import Mathlib

/-!
# Formal model of the btcx core

A shallow embedding of the btcx code-search agent: the usefulness
classifier and the agent control loop (internal/agent/loop.go), the
force-completion synthesis, the tool-output truncation policy
(internal/tool/tool.go, internal/tool/truncation.go), the binary-file
heuristics (internal/tool/read.go, the tool package similarity file, and
the search package), and the search engine's grep/glob primitives with
their ripgrep delegation (search package files).

Strings are modelled as lists of characters (ASCII text, where Go's byte
length and the character count coincide). Filesystem and network effects
are passed in explicitly: the provider is an oracle giving one outcome
per round, tools are an oracle from a call to its result text, and the
side-channel write is an oracle of success flags.
-/

namespace Btcx

/-- ASCII text modelled as a list of characters (Go byte strings; for the
ASCII text the claims exercise, Go `len` equals the character count). -/
abbrev Str := List Char

/-- Go `strings.Contains hay needle`: whether `needle` occurs as a
contiguous substring of `hay`. -/
def strContains : Str → Str → Bool
  | hay, needle =>
    match hay with
    | [] => needle.isEmpty
    | _ :: t => needle.isPrefixOf hay || strContains t needle

/-- Go `strings.ToLower` restricted to the character-map case. -/
def lowerStr (s : Str) : Str := s.map Char.toLower

/-- `isEmptyResult` (internal/agent/loop.go:47-53): lowercase the result,
then classify it as empty when it contains one of the three no-result
markers or is shorter than 30 characters. -/
def isEmptyResult (result : Str) : Bool :=
  let r := lowerStr result
  strContains r ("no files found".toList) || strContains r ("no matches".toList) ||
    strContains r ("not found".toList) || decide (r.length < 30)

/-- Case-insensitive containment, following the words of the spec: the
marker occurs in the text when both are lowered. -/
def ciContains (s marker : Str) : Prop :=
  strContains (lowerStr s) (lowerStr marker) = true

/-! ## Agent loop (internal/agent/loop.go)

The provider is an oracle `rounds : Nat → RoundOutcome` giving the
response (or transport error) of each model round; any concrete
execution trace of the Go loop corresponds to one such oracle. The tool
registry is an oracle `toolExec : ToolCall → Str`: `executeTool`
(loop.go:349-373) never returns a Go error — registry failures are
folded into the result text as "Error: ..." content — so in `runLoop`
the `err != nil` branch at loop.go:238 is dead and every result text
goes through the usefulness classifier. The md5-based `hashToolCall`
(loop.go:39-44) is abstracted as a parameter `hash`. Per-message
timestamps and the duplicated ToolResults record (whose Output mirrors
the message content) are omitted: no claim depends on them. -/

/-- A requested tool call (storage.ToolCall): id, tool name, raw
serialized arguments. -/
structure ToolCall where
  id : String
  name : String
  args : String
deriving Repr, DecidableEq

/-- A provider response for one round: assistant text, requested tool
calls, token usage (flattened to one number; the loop only sums it). -/
structure ChatResponse where
  content : Str
  toolCalls : List ToolCall
  usage : Nat
deriving Repr, DecidableEq

/-- Outcome of one provider invocation: a response, or a
backend/transport error (the `err != nil` branch at loop.go:157). -/
inductive RoundOutcome where
  | ok (resp : ChatResponse)
  | err (e : String)
deriving Repr

/-- Message roles used by the loop (Go uses the strings "user",
"assistant", "tool"). -/
inductive Role where
  | user
  | assistant
  | tool
deriving Repr, DecidableEq, BEq

/-- A thread message (storage.Message restricted to the fields the loop
reads back: role, content, answered tool-call id). -/
structure Msg where
  role : Role
  content : Str
  toolCallID : String
deriving Repr, DecidableEq

/-- `loopState` (loop.go:17-29): repetition counts per tool-call hash,
consecutive-empty counter, total tool invocations, hint flag. The Go map
is modelled as an association list. -/
structure LoopState where
  searchHistory : List (String × Nat)
  emptyResultCount : Nat
  totalSearches : Nat
  hintInjected : Bool
deriving Repr, DecidableEq

/-- `newLoopState` (loop.go:32-36). -/
def newLoopState : LoopState := ⟨[], 0, 0, false⟩

/-- Lookup in the search-history map (missing key reads as 0, as for a Go
map of ints). -/
def histGet (h : List (String × Nat)) (k : String) : Nat :=
  match h.find? (fun p => p.1 == k) with
  | some p => p.2
  | none => 0

/-- `state.searchHistory[hash]++` (loop.go:220). -/
def histInc (h : List (String × Nat)) (k : String) : List (String × Nat) :=
  match h with
  | [] => [(k, 1)]
  | p :: t => if p.1 == k then (p.1, p.2 + 1) :: t else p :: histInc t k

/-- Accumulator for one round's tool-call execution (the local variables
of loop.go:213-256: the thread messages, the loop state, and the
`hasUsefulResult` / `hasRepeatedSearch` flags). -/
structure RoundExec where
  msgs : List Msg
  st : LoopState
  hasUseful : Bool
  hasRepeated : Bool
deriving Repr, DecidableEq

/-- Process one requested tool call (loop.go:217-256): bump its
repetition count and the total counter, flag a repeat, execute it,
append the tool message, and flag a useful (non-empty) result. -/
def execCall (hash : String → String → String) (toolExec : ToolCall → Str)
    (acc : RoundExec) (tc : ToolCall) : RoundExec :=
  let h := hash tc.name tc.args
  let hist := histInc acc.st.searchHistory h
  let st := { acc.st with searchHistory := hist, totalSearches := acc.st.totalSearches + 1 }
  let hasRepeated := acc.hasRepeated || decide (histGet hist h > 1)
  let result := toolExec tc
  { msgs := acc.msgs ++ [⟨Role.tool, result, tc.id⟩]
    st := st
    hasUseful := acc.hasUseful || !(isEmptyResult result)
    hasRepeated := hasRepeated }

/-- Execute every requested tool call of a round in order
(loop.go:217-256). -/
def execCalls (hash : String → String → String) (toolExec : ToolCall → Str)
    (tcs : List ToolCall) (msgs : List Msg) (st : LoopState) : RoundExec :=
  tcs.foldl (execCall hash toolExec) ⟨msgs, st, false, false⟩

/-- End-of-round state update (loop.go:258-270): reset or increment the
consecutive-empty counter, then inject the stuck-loop hint once when the
counter reaches 2 or a search was repeated. -/
def afterRound (st : LoopState) (hasUseful hasRepeated : Bool) : LoopState :=
  let st := if hasUseful then { st with emptyResultCount := 0 }
            else { st with emptyResultCount := st.emptyResultCount + 1 }
  if (decide (st.emptyResultCount ≥ 2) || hasRepeated) && !st.hintInjected then
    { st with hintInjected := true }
  else st

/-- Forced-completion triggers (loop.go:272-280): 3 consecutive empty
rounds, or 8 total invocations with at least 2 consecutive empties. -/
def shouldForce (st : LoopState) : Bool :=
  decide (st.emptyResultCount ≥ 3) ||
    (decide (st.totalSearches ≥ 8) && decide (st.emptyResultCount ≥ 2))

/-- Backward scan for the most recent assistant message with non-empty
content (the loops at loop.go:194-199, 290-299 and 447-453). -/
def lastAssistantContent (msgs : List Msg) : Option Str :=
  match msgs.reverse.find? (fun m => m.role == Role.assistant && !m.content.isEmpty) with
  | some m => some m.content
  | none => none

/-- Fallback answer string (loop.go:203). -/
def emptyFallbackMsg : Str :=
  "I was unable to generate a response for this query.".toList

/-- Content of a natural (zero-tool-call) answer (loop.go:190-205):
the round's content, else the last non-empty assistant content in the
thread, else a fixed apology. `msgs` is the thread after the round's
assistant message was appended. -/
def naturalContent (respContent : Str) (msgs : List Msg) : Str :=
  if respContent.isEmpty then
    match lastAssistantContent msgs with
    | some c => c
    | none => emptyFallbackMsg
  else respContent

/-- Header line of a tool-evidence forced completion (loop.go:471). -/
def forcedHeader : Str :=
  "Based on the search results, here is what I found:\n\n".toList

/-- Trailing note of a tool-evidence forced completion (loop.go:478). -/
def forcedFooter : Str :=
  "[Note: The model was unable to complete the response. Above are the raw search results.]".toList

/-- Fixed nothing-found message (loop.go:480). -/
def noInfoMsg : Str :=
  "I was unable to find specific information about this topic in the codebase after multiple searches. The search patterns used did not return relevant results. Try rephrasing your question or being more specific about what you\x27re looking for.".toList

/-- Incompleteness notice appended on iteration exhaustion (loop.go:294). -/
def incompleteNote : Str :=
  "\n\n[Note: Response may be incomplete due to iteration limit]".toList

/-- Per-result cap in forceCompletion (loop.go:462-465): over 500
characters, cut at 500 and mark with an ellipsis. -/
def capResult (c : Str) : Str :=
  if c.length > 500 then c.take 500 ++ "...".toList else c

/-- The tool results forceCompletion collects (loop.go:458-468): tool
messages whose content is longer than 100 characters and not classified
empty, each capped at 500 characters. -/
def usefulResults (msgs : List Msg) : List Str :=
  msgs.filterMap (fun m =>
    if m.role == Role.tool && decide (m.content.length > 100) && !(isEmptyResult m.content)
    then some (capResult m.content) else none)

/-- `forceCompletion` (loop.go:444-489): prefer the last non-empty
assistant content; else concatenate the first three collected tool
results between the header and the trailing note (the Go loop breaks at
index 3); else the fixed nothing-found message. -/
def forceCompletion (msgs : List Msg) : Str :=
  match lastAssistantContent msgs with
  | some c => c
  | none =>
    let rs := usefulResults msgs
    if rs.isEmpty then noInfoMsg
    else ((rs.take 3).foldl (fun acc r => acc ++ r ++ ("\n\n".toList)) forcedHeader) ++ forcedFooter

/-- The response record runLoop builds (agent.Response, token usage
flattened to one number). -/
structure Response where
  content : Str
  toolCalls : List ToolCall
  usage : Nat
deriving Repr, DecidableEq

/-- The possible returns of `runLoop`, tagged by return site: `natural`
(loop.go:206, zero tool calls), `forced` (loop.go:274/279, via
forceCompletion), `incomplete` (loop.go:293, iteration exhaustion with
assistant content plus the notice), `fatalMaxIterations` (loop.go:302),
and `chatError` (loop.go:158). The first three are Go `(resp, nil)`
returns; the last two are Go `(nil, error)` returns. -/
inductive LoopResult where
  | natural (r : Response)
  | forced (r : Response)
  | incomplete (r : Response)
  | fatalMaxIterations
  | chatError (e : String)
deriving Repr, DecidableEq

/-- Whether a loop result is a Go error return. -/
def isErrorResult : LoopResult → Bool
  | LoopResult.fatalMaxIterations => true
  | LoopResult.chatError _ => true
  | _ => false

/-- Observable outcome of `runLoop`: the tagged result, the thread
messages at return, the number of provider rounds performed, and whether
the exhaustion-path save of loop.go:283-286 ran. -/
structure LoopOut where
  result : LoopResult
  msgs : List Msg
  roundsUsed : Nat
  savedInLoop : Bool
deriving Repr, DecidableEq

/-- `maxIterations` (loop.go:119). -/
def maxIterations : Nat := 10

/-- The iteration of `runLoop` (loop.go:118-303), structured over the
remaining iteration budget `fuel` (the Go `for i` counter is `i`, the
provider-call count so far is `used`). Fuel 0 is the exhaustion path
(loop.go:283-302): save the thread when messages exist, then return the
last non-empty assistant content with the incompleteness notice, or the
fatal max-iterations error. Otherwise run one round: on a transport
error return it (loop.go:158); append the assistant message, accumulate
tool calls and usage; with zero tool calls return the natural answer
(loop.go:190-211); else execute the calls, update the loop state, force
completion when a trigger fires (loop.go:272-280), else recurse. -/
def runLoopAux (hash : String → String → String) (rounds : Nat → RoundOutcome)
    (toolExec : ToolCall → Str) :
    Nat → Nat → List Msg → LoopState → List ToolCall → Nat → Nat → LoopOut
  | 0, _i, msgs, _st, allCalls, usage, used =>
    match lastAssistantContent msgs with
    | some c =>
      { result := LoopResult.incomplete ⟨c ++ incompleteNote, allCalls, usage⟩
        msgs := msgs, roundsUsed := used, savedInLoop := !msgs.isEmpty }
    | none =>
      { result := LoopResult.fatalMaxIterations
        msgs := msgs, roundsUsed := used, savedInLoop := !msgs.isEmpty }
  | fuel + 1, i, msgs, st, allCalls, usage, used =>
    match rounds i with
    | RoundOutcome.err e =>
      { result := LoopResult.chatError e
        msgs := msgs, roundsUsed := used + 1, savedInLoop := false }
    | RoundOutcome.ok resp =>
      let usage := usage + resp.usage
      let msgs := msgs ++ [⟨Role.assistant, resp.content, ""⟩]
      let allCalls := allCalls ++ resp.toolCalls
      if resp.toolCalls.isEmpty then
        { result := LoopResult.natural ⟨naturalContent resp.content msgs, allCalls, usage⟩
          msgs := msgs, roundsUsed := used + 1, savedInLoop := false }
      else
        let e := execCalls hash toolExec resp.toolCalls msgs st
        let st := afterRound e.st e.hasUseful e.hasRepeated
        if shouldForce st then
          { result := LoopResult.forced ⟨forceCompletion e.msgs, allCalls, usage⟩
            msgs := e.msgs, roundsUsed := used + 1, savedInLoop := false }
        else
          runLoopAux hash rounds toolExec fuel (i + 1) e.msgs st allCalls usage (used + 1)

/-- `runLoop` (loop.go:118-124): fresh loop state, at most 10 rounds. -/
def runLoop (hash : String → String → String) (rounds : Nat → RoundOutcome)
    (toolExec : ToolCall → Str) (msgs : List Msg) : LoopOut :=
  runLoopAux hash rounds toolExec maxIterations 0 msgs newLoopState [] 0 0

/-- Observable outcome of `AskWithCallback`: the tagged result, the
in-memory thread messages, and the sequence of thread snapshots passed
to the storage collaborator's SaveThread. -/
structure AskOut where
  result : LoopResult
  msgs : List Msg
  saveEvents : List (List Msg)
deriving Repr, DecidableEq

/-- `AskWithCallback` (loop.go:76-115) restricted to the thread's message
sequence: append the question as a user message, run the loop; on a loop
error return it at once (loop.go:104-106) — the only saves are those the
loop itself made; on success save the thread (loop.go:109, failures
logged but ignored) and return the response. -/
def askWithCallback (hash : String → String → String) (rounds : Nat → RoundOutcome)
    (toolExec : ToolCall → Str) (initMsgs : List Msg) (question : Str) : AskOut :=
  let msgs := initMsgs ++ [⟨Role.user, question, ""⟩]
  let out := runLoop hash rounds toolExec msgs
  let loopSaves := if out.savedInLoop then [out.msgs] else []
  if isErrorResult out.result then
    { result := out.result, msgs := out.msgs, saveEvents := loopSaves }
  else
    { result := out.result, msgs := out.msgs, saveEvents := loopSaves ++ [out.msgs] }

/-! ## Binary-file heuristics (internal/tool/read.go, the tool package
similarity/binary file, and the search package)

File bytes are lists of naturals below 256. Go's `file.Read(buf)` on an
empty regular file returns `n = 0` with `err = io.EOF`, so the model's
first-chunk read of an empty file yields the empty list and both
heuristics take their `err != nil || n == 0` branch. -/

/-- A byte value. -/
abbrev Byte := Nat

/-- Non-printable test of `IsBinaryContent` (tool package, binary/similarity
file, lines 186-188): below tab (9), or between 14 and 31. -/
def isNonPrintable (b : Byte) : Bool :=
  decide (b < 9) || (decide (b > 13) && decide (b < 32))

/-- `IsBinaryContent` (tool package, binary/similarity file, lines
166-193) applied to the first read's chunk (up to 4096 bytes): a
zero-byte read is binary (`err != nil || n == 0`, the empty regular
file reads 0 bytes with io.EOF); a null byte is binary; more than 30%
non-printable bytes is binary. Go compares `float64(nonPrintable)/n >
0.3`; the model uses the exact comparison `10*nonPrintable > 3*n`,
which agrees away from floating-point borderline ratios — the claims
only exercise the zero-byte and null-byte branches. -/
def isBinaryContent (chunk : List Byte) : Bool :=
  if chunk.isEmpty then true
  else if chunk.any (fun b => b == 0) then true
  else decide (10 * chunk.countP isNonPrintable > 3 * chunk.length)

/-- The content heuristic of `isBinaryFile` (search package, lines
416-436): first 512 bytes; a zero-byte read (`err != nil || n == 0`) or
any null byte means binary. -/
def isBinaryFileScan (bytes : List Byte) : Bool :=
  let chunk := bytes.take 512
  if chunk.isEmpty then true
  else chunk.any (fun b => b == 0)

/-- Abstract view of a regular file for the read tool, after the stat
and directory checks of read.go:92-109 passed: whether
`isBinaryExtension` (read.go:215-229) fires for its path, and its raw
bytes. -/
structure RegFile where
  binExt : Bool
  bytes : List Byte
deriving Repr, DecidableEq

/-- The read error string of read.go:113/119 (without the path suffix). -/
def cannotReadBinaryMsg : Str := "cannot read binary file".toList

/-- The binary gate of `ReadTool.Execute` (read.go:111-120): reject on
the extension denylist, then on the content heuristic over the first
4096 bytes; only then does Execute proceed to scan lines. The model
returns the error text, or `Unit` for "proceed to the file view". -/
def readToolBinaryGate (f : RegFile) : Except Str Unit :=
  if f.binExt then Except.error cannotReadBinaryMsg
  else if isBinaryContent (f.bytes.take 4096) then Except.error cannotReadBinaryMsg
  else Except.ok ()

/-! ## Search engine (search package: goGrep/goGlob and the ripgrep
delegation)

The walked tree is flattened to the list of its files in traversal
order; a file carries the verdicts of the per-entry checks whose inputs
are outside the model: `hidden` (dot-prefixed name, or inside a
dot-prefixed or gitignore-pruned directory, which the walk never
visits), `ignored` (the file's own gitignore match), and the doublestar
glob verdicts. The compiled regular expression is an abstract line
predicate `re`, and the include glob an abstract file predicate (with
`none` for an empty `opts.Include`). -/

/-- A file the walk would visit (or prune), with the external verdicts
attached. `lines` is the text view `bufio.Scanner` yields; `bytes` the
raw view the binary heuristic reads; `modTime` the modification time. -/
structure File where
  path : String
  hidden : Bool
  ignored : Bool
  extBin : Bool
  bytes : List Byte
  lines : List Str
  modTime : Nat
deriving Repr, DecidableEq

/-- `isBinaryFile` (search package, lines 396-437): extension denylist,
then the 512-byte null scan (an unopenable file is also binary; the
model's files are readable). -/
def fileIsBinary (f : File) : Bool :=
  f.extBin || isBinaryFileScan f.bytes

/-- A grep match (search.Match). -/
structure Match where
  path : String
  lineNum : Nat
  lineText : Str
  modTime : Nat
deriving Repr, DecidableEq

/-- A glob hit (search.FileInfo). -/
structure FileInfo where
  path : String
  modTime : Nat
deriving Repr, DecidableEq

/-- Long-line truncation of `grepFile` (search package, lines 256-260). -/
def truncLine (maxLen : Nat) (l : Str) : Str :=
  if l.length > maxLen then l.take maxLen ++ "...".toList else l

/-- `grepFile` (search package, lines 234-272): one match per line the
regular expression accepts, with 1-based line numbers and the file's
modification time. -/
def grepFile (re : Str → Bool) (maxLen : Nat) (f : File) : List Match :=
  f.lines.enum.filterMap (fun p =>
    if re p.2 then some ⟨f.path, p.1 + 1, truncLine maxLen p.2, f.modTime⟩ else none)

/-- The walk-callback skip conditions of goGrep (search package, lines
162-199) as a file eligibility test: hidden entries, gitignored
entries, include-glob misses and binary files are skipped. -/
def grepEligible (incl : Option (File → Bool)) (f : File) : Bool :=
  !f.hidden && !f.ignored &&
    (match incl with
     | none => true
     | some p => p f) && !(fileIsBinary f)

/-- The goGrep walk (search package, lines 154-215): visit files in
traversal order, append each eligible file's matches, and stop the walk
(`filepath.SkipAll`) once the collected matches reach the cap. -/
def collectGrep (re : Str → Bool) (incl : Option (File → Bool))
    (maxLen maxMatches : Nat) : List File → List Match → List Match
  | [], acc => acc
  | f :: fs, acc =>
    if grepEligible incl f then
      let acc2 := acc ++ grepFile re maxLen f
      if maxMatches ≤ acc2.length then acc2
      else collectGrep re incl maxLen maxMatches fs acc2
    else collectGrep re incl maxLen maxMatches fs acc

/-- The newest-first ordering on matches: `a` is at least as new as
`b`. -/
def matchNewer (a b : Match) : Prop := b.modTime ≤ a.modTime

instance : DecidableRel matchNewer := fun a b => Nat.decLe b.modTime a.modTime

instance : IsTotal Match matchNewer := ⟨fun a b => le_total b.modTime a.modTime⟩

instance : IsTrans Match matchNewer := ⟨fun _ _ _ hab hbc => le_trans hbc hab⟩

/-- Newest-first sort by modification time. Both `sort.Slice` with
`After` (goGrep, line 222) and the swap sort `sortMatchesByTime`
(ripgrep file, lines 196-204) order by ModTime newest-first and leave
ties unspecified; the model fixes the insertion-sort order, an
admissible refinement of both. -/
def sortMatchesDesc (ms : List Match) : List Match := List.insertionSort matchNewer ms

/-- The newest-first ordering on glob hits. -/
def fileNewer (a b : FileInfo) : Prop := b.modTime ≤ a.modTime

instance : DecidableRel fileNewer := fun a b => Nat.decLe b.modTime a.modTime

instance : IsTotal FileInfo fileNewer := ⟨fun a b => le_total b.modTime a.modTime⟩

instance : IsTrans FileInfo fileNewer := ⟨fun _ _ _ hab hbc => le_trans hbc hab⟩

/-- Newest-first sort for glob hits (goGlob line 374, `sortFilesByTime`
lines 207-215), same tie remark as `sortMatchesDesc`. -/
def sortFilesDesc (ms : List FileInfo) : List FileInfo := List.insertionSort fileNewer ms

/-- `goGrep` (search package, lines 136-232): default the options
(MaxMatches 100, MaxLineLength 2000 when zero), collect along the walk
with its early stop, sort newest-first, truncate to the cap. A pattern
that fails to compile makes Grep error out before any walk; the model's
`re` is a compiled pattern. -/
def goGrep (re : Str → Bool) (incl : Option (File → Bool))
    (maxMatches maxLineLength : Nat) (tree : List File) : List Match :=
  let maxM := if maxMatches = 0 then 100 else maxMatches
  let maxL := if maxLineLength = 0 then 2000 else maxLineLength
  let ms := collectGrep re incl maxL maxM tree []
  (sortMatchesDesc ms).take maxM

/-- The walk-eligibility of goGlob (search package, lines 310-359):
hidden and gitignored entries are skipped; `pat` is the doublestar
verdict of the glob pattern against the bare name or the relative
path. -/
def globEligible (pat : File → Bool) (f : File) : Bool :=
  !f.hidden && !f.ignored && pat f

/-- The goGlob walk (search package, lines 310-367): append each
eligible file, stop once the collected files reach the cap. -/
def collectGlob (pat : File → Bool) (maxFiles : Nat) :
    List File → List FileInfo → List FileInfo
  | [], acc => acc
  | f :: fs, acc =>
    if globEligible pat f then
      let acc2 := acc ++ [⟨f.path, f.modTime⟩]
      if maxFiles ≤ acc2.length then acc2
      else collectGlob pat maxFiles fs acc2
    else collectGlob pat maxFiles fs acc

/-- `goGlob` (search package, lines 300-384): default MaxFiles 100 when
zero, collect with the early stop, sort newest-first, truncate. -/
def goGlob (pat : File → Bool) (maxFiles : Nat) (tree : List File) : List FileInfo :=
  let maxF := if maxFiles = 0 then 100 else maxFiles
  let fs := collectGlob pat maxF tree []
  (sortFilesDesc fs).take maxF

/-- Modelled ripgrep binary verdict: ripgrep detects binary files by
content only (a NUL byte anywhere in the data it scans); it has no
extension denylist and no 512-byte window, unlike the fallback's
`isBinaryFile`. -/
def rgFileIsBinary (f : File) : Bool := f.bytes.any (fun b => b == 0)

/-- Modelled external semantics of the ripgrep invocation built in
`RipgrepGrep` (ripgrep file, lines 38-55): the argument list passes
`--hidden` (source comment: "Search hidden files"), so hidden entries
are eligible; gitignored entries are excluded (ripgrep's default);
binary files are skipped by ripgrep's own content-only NUL detection
(`rgFileIsBinary` — no extension denylist); `--glob` applies the
include filter. The `--follow` flag additionally makes the delegated
process follow symlinks, which the fallback's `filepath.WalkDir` does
not, so the visited file set itself can differ; the equivalence theorem
takes the same-visited-set assumption as an explicit hypothesis
(`emitted` a permutation of the walked tree). -/
def rgGrepEligible (incl : Option (File → Bool)) (f : File) : Bool :=
  !f.ignored &&
    (match incl with
     | none => true
     | some p => p f) && !(rgFileIsBinary f)

/-- Files on which the fallback's binary verdict (`fileIsBinary`:
extension denylist, empty-read check, NUL scan of the first 512 bytes)
and ripgrep's (`rgFileIsBinary`: content-only NUL detection) coincide:
plainly text files — non-empty content, no NUL byte anywhere, extension
not on the denylist — and files with a NUL byte within the first 512
bytes. Outside this set the two paths genuinely diverge (a denylisted
extension on text content, a zero-byte file, or a NUL only beyond byte
512). -/
def binaryAgreed (f : File) : Bool :=
  (!f.extBin && !f.bytes.isEmpty && !(f.bytes.any (fun b => b == 0))) ||
    (f.bytes.take 512).any (fun b => b == 0)

/-- The stdout-parsing loop of `RipgrepGrep` (ripgrep file, lines
70-114): matches arrive line by line in ripgrep's emission order and
collection breaks exactly at the cap. -/
def collectRg (re : Str → Bool) (incl : Option (File → Bool))
    (maxLen maxMatches : Nat) : List File → List Match → List Match
  | [], acc => acc
  | f :: fs, acc =>
    if rgGrepEligible incl f then
      let acc2 := acc ++ (grepFile re maxLen f).take (maxMatches - acc.length)
      if maxMatches ≤ acc2.length then acc2
      else collectRg re incl maxLen maxMatches fs acc2
    else collectRg re incl maxLen maxMatches fs acc

/-- `RipgrepGrep` (ripgrep file, lines 29-123): default the options,
collect up to the cap from ripgrep's output, sort newest-first (no
further truncation — collection already stops at the cap). `emitted` is
the file sequence in ripgrep's unspecified output order. -/
def ripgrepGrep (re : Str → Bool) (incl : Option (File → Bool))
    (maxMatches maxLineLength : Nat) (emitted : List File) : List Match :=
  let maxM := if maxMatches = 0 then 100 else maxMatches
  let maxL := if maxLineLength = 0 then 2000 else maxLineLength
  sortMatchesDesc (collectRg re incl maxL maxM emitted [])

/-- Modelled external semantics of the `RipgrepGlob` invocation (ripgrep
file, lines 132-137): `--files --hidden --glob pattern`, so hidden
entries are eligible and gitignored entries excluded (no binary check
in file-listing mode, as in goGlob). The `--follow` remark of
`rgGrepEligible` applies here too. -/
def rgGlobEligible (pat : File → Bool) (f : File) : Bool :=
  !f.ignored && pat f

/-- The stdout loop of `RipgrepGlob` (ripgrep file, lines 155-184):
one hit per emitted path, break exactly at the cap. -/
def collectRgGlob (pat : File → Bool) (maxFiles : Nat) :
    List File → List FileInfo → List FileInfo
  | [], acc => acc
  | f :: fs, acc =>
    if rgGlobEligible pat f then
      let acc2 := acc ++ [⟨f.path, f.modTime⟩]
      if maxFiles ≤ acc2.length then acc2
      else collectRgGlob pat maxFiles fs acc2
    else collectRgGlob pat maxFiles fs acc

/-- `RipgrepGlob` (ripgrep file, lines 126-193). -/
def ripgrepGlob (pat : File → Bool) (maxFiles : Nat) (emitted : List File) : List FileInfo :=
  let maxF := if maxFiles = 0 then 100 else maxFiles
  sortFilesDesc (collectRgGlob pat maxF emitted [])

/-- All matches of the fallback-eligible files of a tree, in traversal
order (what the goGrep walk collects when the cap never stops it). -/
def eligibleMatches (re : Str → Bool) (incl : Option (File → Bool))
    (maxLen : Nat) (tree : List File) : List Match :=
  (tree.filter (grepEligible incl)).flatMap (grepFile re maxLen)

/-- All matches of the delegation-eligible files of an emission order
(what the RipgrepGrep parse collects when the cap never stops it). -/
def rgEligibleMatches (re : Str → Bool) (incl : Option (File → Bool))
    (maxLen : Nat) (emitted : List File) : List Match :=
  (emitted.filter (rgGrepEligible incl)).flatMap (grepFile re maxLen)

/-- All hits of the fallback-eligible files of a tree, in traversal
order. -/
def eligibleFiles (pat : File → Bool) (tree : List File) : List FileInfo :=
  (tree.filter (globEligible pat)).map (fun f => ⟨f.path, f.modTime⟩)

/-- All hits of the delegation-eligible files of an emission order. -/
def rgEligibleFiles (pat : File → Bool) (emitted : List File) : List FileInfo :=
  (emitted.filter (rgGlobEligible pat)).map (fun f => ⟨f.path, f.modTime⟩)

/-! ## Truncation policy (internal/tool/truncation.go, internal/tool/tool.go)

The side-channel filesystem is an oracle: whether `os.MkdirAll`
succeeds, whether `os.WriteFile` succeeds, and the randomly-suffixed
path the file gets. `TruncateOutput` returns a nil Go error on every
path, so the model is a total function. -/

/-- `MaxOutputBytes` (truncation.go:15). -/
def maxOutputBytes : Nat := 50 * 1024

/-- `MaxOutputLines` (truncation.go:18). -/
def maxOutputLines : Nat := 500

/-- Go `strings.Split(output, "\n")` (truncation.go:52): split around
each newline; the empty text splits to one empty line. -/
def splitNl : Str → List Str
  | [] => [[]]
  | c :: t =>
    if c = '\n' then [] :: splitNl t
    else
      match splitNl t with
      | [] => [[c]]
      | l :: ls => (c :: l) :: ls

/-- Go `strings.Join(lines, "\n")` (truncation.go:95). -/
def joinNl (ls : List Str) : Str := (ls.intersperse ("\n".toList)).flatten

/-- The line-elision note (truncation.go:96), stating the cut point and
the total line count. -/
def lineTruncNote (total : Nat) : Str :=
  "\n\n[Output truncated at ".toList ++ (toString maxOutputLines).toList ++
    " lines. Total: ".toList ++ (toString total).toList ++ " lines]".toList

/-- The byte-elision note (truncation.go:104). -/
def byteTruncNote : Str := "\n\n[Output truncated at 50KB]".toList

/-- The note pointing at the side-channel file (truncation.go:84). -/
def savedNote (p : Str) : Str :=
  "\n\n[Full output saved to: ".toList ++ p ++ "]".toList

/-- search.TruncationResult (truncation.go:25-34); an absent output path
is the empty string. -/
structure TruncationResult where
  content : Str
  truncated : Bool
  outputPath : Str
deriving Repr, DecidableEq

/-- TruncationConfig (truncation.go:37-46). -/
structure TruncationConfig where
  outputDir : Str
  threadID : Str
  toolName : Str
deriving Repr, DecidableEq

/-- The side-channel filesystem oracle: MkdirAll success, WriteFile
success, and the full randomly-suffixed output path
(`outputDir/threadID/toolName-rand.txt`). -/
structure FsOracle where
  mkdirOk : Bool
  writeOk : Bool
  outPath : Str
deriving Repr, DecidableEq

/-- `truncateInMemory` (truncation.go:90-111): cut at the line ceiling
first (with the line note), then at the byte ceiling (with the byte
note). -/
def truncateInMemory (output : Str) (lines : List Str) : TruncationResult :=
  let t1 :=
    if maxOutputLines < lines.length then
      joinNl (lines.take maxOutputLines) ++ lineTruncNote lines.length
    else output
  let t2 := if maxOutputBytes < t1.length then t1.take maxOutputBytes ++ byteTruncNote else t1
  ⟨t2, true, []⟩

/-- `TruncateOutput` (truncation.go:50-87): no truncation under both
ceilings; on a MkdirAll or WriteFile failure degrade to the in-memory
preview without a path; otherwise annotate the preview with the saved
location. Every Go path returns a nil error. -/
def truncateOutput (output : Str) (_cfg : TruncationConfig) (fs : FsOracle) : TruncationResult :=
  let lines := splitNl output
  if !(decide (maxOutputBytes < output.length) || decide (maxOutputLines < lines.length)) then
    ⟨output, false, []⟩
  else if !fs.mkdirOk then truncateInMemory output lines
  else if !fs.writeOk then truncateInMemory output lines
  else
    let r := truncateInMemory output lines
    { r with outputPath := fs.outPath, content := r.content ++ savedNote fs.outPath }

/-- The side-channel annotation the preview receives: the saved-location
note when both filesystem operations succeed, nothing otherwise. -/
def sideNote (fs : FsOracle) : Str :=
  if fs.mkdirOk && fs.writeOk then savedNote fs.outPath else []

/-- Result of `Registry.Execute` after a successful tool run: the output
text, the `truncated` metadata flag, and the `outputPath` metadata
entry. -/
structure ExecResult where
  output : Str
  truncatedMeta : Bool
  outputPathMeta : Option Str
deriving Repr, DecidableEq

/-- The truncation application of `Registry.Execute` (tool.go:101-117):
only when an output directory is configured is `TruncateOutput` called,
and its content and metadata applied when it truncated (`truncErr` is
always nil). -/
def registryApplyTruncation (outputDir threadID toolName : Str) (fs : FsOracle)
    (toolOutput : Str) : ExecResult :=
  if outputDir.isEmpty then ⟨toolOutput, false, none⟩
  else
    let tr := truncateOutput toolOutput ⟨outputDir, threadID, toolName⟩ fs
    if tr.truncated then
      ⟨tr.content, true, if tr.outputPath.isEmpty then none else some tr.outputPath⟩
    else ⟨toolOutput, false, none⟩

/-! ## Concrete instances

Closed inputs used by the counterexamples and by the witnesses of the
hypothesis-bearing theorems. -/

/-- A stand-in for `hashToolCall` (any stable hash; the theorems
quantify over the hash function). -/
def hashEx : String → String → String := fun n a => n ++ a

/-- A grep tool call. -/
def tcEx : ToolCall := ⟨"1", "grep", "pat"⟩

/-- A provider round requesting one tool call with empty content. -/
def respEx : ChatResponse := ⟨[], [tcEx], 1⟩

/-- A provider oracle that requests one tool call every round. -/
def roundsEx : Nat → RoundOutcome := fun _ => RoundOutcome.ok respEx

/-- A provider oracle failing with a transport error every round. -/
def roundsErrEx : Nat → RoundOutcome := fun _ => RoundOutcome.err "network failure"

/-- A tool oracle whose every result is a no-result marker. -/
def toolEmptyEx : ToolCall → Str := fun _ => "no matches".toList

/-- A useful tool result: 47 characters, no marker. -/
def usefulStrEx : Str := "func main() is defined in cmd/btcx/main.go file".toList

/-- A tool oracle whose every result is useful. -/
def toolUsefulEx : ToolCall → Str := fun _ => usefulStrEx

/-- Loop state after two consecutive empty rounds. -/
def stTwoEmptyEx : LoopState := ⟨[], 2, 0, false⟩

/-- A 56-character tool output: non-empty and classified useful, but not
longer than 100 characters. -/
def midToolOutputEx : Str :=
  "This documentation covers the setup steps for the agent.".toList

/-- A 140-character tool output (longer than 100 characters, useful). -/
def longToolOutputEx : Str :=
  "The agent loop lives in internal/agent/loop.go and drives up to ten rounds of model calls and tool executions before forcing an answer out.".toList

/-- The line predicate accepting every line (a compiled pattern that
matches everything, such as `foo` against files whose lines contain
foo). -/
def reAllEx : Str → Bool := fun _ => true

/-- The glob predicate accepting every file. -/
def patAllEx : File → Bool := fun _ => true

/-- `a.go`: oldest of the three-file example, one matching line. -/
def aFileEx : File :=
  ⟨"a.go", false, false, false, [102, 111, 111], ["foo alpha".toList], 1⟩

/-- `b.go`: middle modification time, one matching line. -/
def bFileEx : File :=
  ⟨"b.go", false, false, false, [102, 111, 111], ["foo beta".toList], 2⟩

/-- `c.go`: newest, one matching line. -/
def cFileEx : File :=
  ⟨"c.go", false, false, false, [102, 111, 111], ["foo gamma".toList], 3⟩

/-- The three-file tree in lexical traversal order (oldest first). -/
def treeAbcEx : List File := [aFileEx, bFileEx, cFileEx]

/-- A hidden file with a matching line (dot-prefixed name). -/
def hiddenFileEx : File :=
  ⟨".env", true, false, false, [83], ["SECRET_TOKEN=abcdef0123456789".toList], 5⟩

/-- A text file with a denylisted extension (`.dat`): plain printable
content, one matching line. -/
def datFileEx : File :=
  ⟨"notes.dat", false, false, true, [110, 111, 116, 101], ["note foo".toList], 6⟩

/-- A zero-byte file as the walk sees it. -/
def emptyWalkFileEx : File := ⟨"empty.txt", false, false, false, [], [], 4⟩

/-- A zero-byte regular file as the read tool sees it (no binary
extension). -/
def emptyRegFileEx : RegFile := ⟨false, []⟩

/-- Output of 600 one-character lines. -/
def out600Ex : Str := joinNl (List.replicate 600 ['x'])

/-- A filesystem oracle whose writes succeed. -/
def fsOkEx : FsOracle := ⟨true, true, "outputs/t1/grep-ab12cd34.txt".toList⟩

/-- A filesystem oracle whose directory creation fails. -/
def fsNoMkdirEx : FsOracle := ⟨false, true, "outputs/t1/grep-ab12cd34.txt".toList⟩

/-! # Theorems -/

theorem lowerStr_length (s : Str) : (lowerStr s).length = s.length := by
  simp [lowerStr]

/-- Claim C8: a tool result is classified non-useful exactly when its text
is shorter than 30 characters or contains, case-insensitively, one of the
markers "no files found", "no matches", or "not found". -/
theorem c8_theorem (s : Str) :
    isEmptyResult s = true ↔
      (s.length < 30 ∨ ciContains s ("no files found".toList) ∨
        ciContains s ("no matches".toList) ∨ ciContains s ("not found".toList)) := by
  have h1 : lowerStr ("no files found".toList) = "no files found".toList := by decide
  have h2 : lowerStr ("no matches".toList) = "no matches".toList := by decide
  have h3 : lowerStr ("not found".toList) = "not found".toList := by decide
  simp only [isEmptyResult, ciContains, h1, h2, h3, Bool.or_eq_true,
    decide_eq_true_eq, lowerStr_length]
  tauto

theorem foldl_execCall_spec (hash : String → String → String) (toolExec : ToolCall → Str)
    (tcs : List ToolCall) (acc : RoundExec) :
    ((tcs.foldl (execCall hash toolExec) acc).st.emptyResultCount = acc.st.emptyResultCount) ∧
    ((tcs.foldl (execCall hash toolExec) acc).st.totalSearches
        = acc.st.totalSearches + tcs.length) ∧
    ((tcs.foldl (execCall hash toolExec) acc).hasUseful
        = (acc.hasUseful || tcs.any fun tc => !(isEmptyResult (toolExec tc)))) := by
  induction tcs generalizing acc with
  | nil => simp
  | cons tc tcs ih =>
    obtain ⟨h1, h2, h3⟩ := ih (execCall hash toolExec acc tc)
    refine ⟨?_, ?_, ?_⟩
    · rw [List.foldl_cons, h1]; rfl
    · rw [List.foldl_cons, h2]; simp [execCall]; omega
    · rw [List.foldl_cons, h3]; simp [execCall, Bool.or_assoc]

theorem foldl_execCall_msgs (hash : String → String → String) (toolExec : ToolCall → Str)
    (tcs : List ToolCall) (acc : RoundExec) :
    ∃ t, (tcs.foldl (execCall hash toolExec) acc).msgs = acc.msgs ++ t := by
  induction tcs generalizing acc with
  | nil => exact ⟨[], by simp⟩
  | cons tc tcs ih =>
    obtain ⟨t, ht⟩ := ih (execCall hash toolExec acc tc)
    refine ⟨⟨Role.tool, toolExec tc, tc.id⟩ :: t, ?_⟩
    rw [List.foldl_cons, ht]; simp [execCall]

theorem afterRound_emptyCount_of_not_useful (st : LoopState) (hr : Bool) :
    (afterRound st false hr).emptyResultCount = st.emptyResultCount + 1 := by
  simp only [afterRound, Bool.false_eq_true, if_false]
  split <;> rfl

theorem afterRound_totalSearches (st : LoopState) (hu hr : Bool) :
    (afterRound st hu hr).totalSearches = st.totalSearches := by
  simp only [afterRound]
  split <;> split <;> rfl

/-- Claim C3: within one Ask call, a round whose executed tool calls all
yield non-useful results increments the consecutive-empty counter, and
when that makes it reach 3 — or makes it at least 2 while total tool
invocations reach 8 — the loop stops in that round with a
forced-completion answer (a `(resp, nil)` return, not an error), never
consuming a further provider round. -/
theorem c3_theorem (hash : String → String → String) (rounds : Nat → RoundOutcome)
    (toolExec : ToolCall → Str) (fuel i : Nat) (msgs : List Msg) (st : LoopState)
    (allCalls : List ToolCall) (usage used : Nat) (resp : ChatResponse)
    (hresp : rounds i = RoundOutcome.ok resp)
    (hne : resp.toolCalls ≠ [])
    (hempty : ∀ tc ∈ resp.toolCalls, isEmptyResult (toolExec tc) = true)
    (htrig : st.emptyResultCount = 2 ∨
       (1 ≤ st.emptyResultCount ∧ 8 ≤ st.totalSearches + resp.toolCalls.length)) :
    (afterRound
        (execCalls hash toolExec resp.toolCalls
          (msgs ++ [⟨Role.assistant, resp.content, ""⟩]) st).st
        (execCalls hash toolExec resp.toolCalls
          (msgs ++ [⟨Role.assistant, resp.content, ""⟩]) st).hasUseful
        (execCalls hash toolExec resp.toolCalls
          (msgs ++ [⟨Role.assistant, resp.content, ""⟩]) st).hasRepeated).emptyResultCount
      = st.emptyResultCount + 1 ∧
    runLoopAux hash rounds toolExec (fuel + 1) i msgs st allCalls usage used =
      { result := LoopResult.forced
          ⟨forceCompletion (execCalls hash toolExec resp.toolCalls
              (msgs ++ [⟨Role.assistant, resp.content, ""⟩]) st).msgs,
            allCalls ++ resp.toolCalls, usage + resp.usage⟩
        msgs := (execCalls hash toolExec resp.toolCalls
            (msgs ++ [⟨Role.assistant, resp.content, ""⟩]) st).msgs
        roundsUsed := used + 1
        savedInLoop := false } := by
  set e := execCalls hash toolExec resp.toolCalls (msgs ++ [⟨Role.assistant, resp.content, ""⟩]) st with he
  obtain ⟨hc, ht, hu⟩ := foldl_execCall_spec hash toolExec resp.toolCalls
    ⟨msgs ++ [⟨Role.assistant, resp.content, ""⟩], st, false, false⟩
  have hanyfalse : (resp.toolCalls.any fun tc => !(isEmptyResult (toolExec tc))) = false := by
    rw [List.any_eq_false]
    intro tc htc
    simp [hempty tc htc]
  have husef : e.hasUseful = false := by
    rw [he]; unfold execCalls; rw [hu, hanyfalse]; rfl
  have hcount : e.st.emptyResultCount = st.emptyResultCount := by
    rw [he]; unfold execCalls; rw [hc]
  have htotal : e.st.totalSearches = st.totalSearches + resp.toolCalls.length := by
    rw [he]; unfold execCalls; rw [ht]
  have hinc : (afterRound e.st e.hasUseful e.hasRepeated).emptyResultCount
      = st.emptyResultCount + 1 := by
    rw [husef, afterRound_emptyCount_of_not_useful, hcount]
  have hforce : shouldForce (afterRound e.st e.hasUseful e.hasRepeated) = true := by
    have h2 : (afterRound e.st e.hasUseful e.hasRepeated).totalSearches
        = st.totalSearches + resp.toolCalls.length := by
      rw [afterRound_totalSearches, htotal]
    unfold shouldForce
    rcases htrig with h | ⟨h8, h9⟩
    · simp only [Bool.or_eq_true, decide_eq_true_eq]
      left; omega
    · simp only [Bool.or_eq_true, Bool.and_eq_true, decide_eq_true_eq]
      right; constructor <;> omega
  have hie : resp.toolCalls.isEmpty = false := by
    cases h : resp.toolCalls
    · exact absurd h hne
    · rfl
  refine ⟨hinc, ?_⟩
  simp only [runLoopAux, hresp, hie, Bool.false_eq_true, if_false, ← he, hforce, if_true]

/-- Closed instance of C3: two empty rounds already recorded, one more
round of a single empty-result tool call forces completion at once. -/
theorem c3_witness :
    (afterRound
        (execCalls hashEx toolEmptyEx respEx.toolCalls
          ([] ++ [⟨Role.assistant, respEx.content, ""⟩]) stTwoEmptyEx).st
        (execCalls hashEx toolEmptyEx respEx.toolCalls
          ([] ++ [⟨Role.assistant, respEx.content, ""⟩]) stTwoEmptyEx).hasUseful
        (execCalls hashEx toolEmptyEx respEx.toolCalls
          ([] ++ [⟨Role.assistant, respEx.content, ""⟩]) stTwoEmptyEx).hasRepeated).emptyResultCount
      = stTwoEmptyEx.emptyResultCount + 1 ∧
    runLoopAux hashEx roundsEx toolEmptyEx 1 0 [] stTwoEmptyEx [] 0 0 =
      { result := LoopResult.forced
          ⟨forceCompletion (execCalls hashEx toolEmptyEx respEx.toolCalls
              ([] ++ [⟨Role.assistant, respEx.content, ""⟩]) stTwoEmptyEx).msgs,
            [] ++ respEx.toolCalls, 0 + respEx.usage⟩
        msgs := (execCalls hashEx toolEmptyEx respEx.toolCalls
            ([] ++ [⟨Role.assistant, respEx.content, ""⟩]) stTwoEmptyEx).msgs
        roundsUsed := 0 + 1
        savedInLoop := false } :=
  c3_theorem hashEx roundsEx toolEmptyEx 0 0 [] stTwoEmptyEx [] 0 0 respEx rfl
    (by decide) (by decide) (Or.inl rfl)

theorem runLoopAux_spec (hash : String → String → String) (rounds : Nat → RoundOutcome)
    (toolExec : ToolCall → Str) (fuel : Nat) :
    ∀ (i : Nat) (msgs : List Msg) (st : LoopState) (allCalls : List ToolCall)
      (usage used : Nat),
      (runLoopAux hash rounds toolExec fuel i msgs st allCalls usage used).roundsUsed
          ≤ used + fuel ∧
      (∀ r, (runLoopAux hash rounds toolExec fuel i msgs st allCalls usage used).result
            = LoopResult.incomplete r →
         ∃ c, lastAssistantContent
                (runLoopAux hash rounds toolExec fuel i msgs st allCalls usage used).msgs
              = some c ∧
           r.content = c ++ incompleteNote ∧
           (runLoopAux hash rounds toolExec fuel i msgs st allCalls usage used).roundsUsed
              = used + fuel) ∧
      ((runLoopAux hash rounds toolExec fuel i msgs st allCalls usage used).result
            = LoopResult.fatalMaxIterations →
         lastAssistantContent
             (runLoopAux hash rounds toolExec fuel i msgs st allCalls usage used).msgs
            = none ∧
         (runLoopAux hash rounds toolExec fuel i msgs st allCalls usage used).roundsUsed
            = used + fuel) := by
  induction fuel with
  | zero =>
    intro i msgs st allCalls usage used
    cases hl : lastAssistantContent msgs with
    | some c =>
      refine ⟨?_, ?_, ?_⟩ <;> simp only [runLoopAux, hl]
      · exact Nat.le_refl _
      · intro r hr
        cases hr
        exact ⟨c, rfl, rfl, rfl⟩
      · intro hr
        cases hr
    | none =>
      refine ⟨?_, ?_, ?_⟩ <;> simp only [runLoopAux, hl]
      · exact Nat.le_refl _
      · intro r hr
        cases hr
      · intro _
        exact ⟨trivial, rfl⟩
  | succ fuel ih =>
    intro i msgs st allCalls usage used
    cases hr : rounds i with
    | err e =>
      refine ⟨?_, ?_, ?_⟩ <;> simp only [runLoopAux, hr]
      · omega
      · intro r h
        cases h
      · intro h
        cases h
    | ok resp =>
      by_cases hie : resp.toolCalls.isEmpty = true
      · refine ⟨?_, ?_, ?_⟩ <;> simp only [runLoopAux, hr, hie, if_true]
        · omega
        · intro r h
          cases h
        · intro h
          cases h
      · have hie2 : resp.toolCalls.isEmpty = false := by
          cases h : resp.toolCalls.isEmpty
          · rfl
          · exact absurd h hie
        by_cases hsf : shouldForce
            (afterRound
              (execCalls hash toolExec resp.toolCalls
                (msgs ++ [⟨Role.assistant, resp.content, ""⟩]) st).st
              (execCalls hash toolExec resp.toolCalls
                (msgs ++ [⟨Role.assistant, resp.content, ""⟩]) st).hasUseful
              (execCalls hash toolExec resp.toolCalls
                (msgs ++ [⟨Role.assistant, resp.content, ""⟩]) st).hasRepeated) = true
        · refine ⟨?_, ?_, ?_⟩ <;>
            simp only [runLoopAux, hr, hie2, Bool.false_eq_true, if_false, hsf, if_true]
          · omega
          · intro r h
            cases h
          · intro h
            cases h
        · have hsf2 : shouldForce
              (afterRound
                (execCalls hash toolExec resp.toolCalls
                  (msgs ++ [⟨Role.assistant, resp.content, ""⟩]) st).st
                (execCalls hash toolExec resp.toolCalls
                  (msgs ++ [⟨Role.assistant, resp.content, ""⟩]) st).hasUseful
                (execCalls hash toolExec resp.toolCalls
                  (msgs ++ [⟨Role.assistant, resp.content, ""⟩]) st).hasRepeated) = false := by
            cases h : shouldForce _
            · rfl
            · exact absurd h hsf
          obtain ⟨ih1, ih2, ih3⟩ := ih (i + 1)
            (execCalls hash toolExec resp.toolCalls
              (msgs ++ [⟨Role.assistant, resp.content, ""⟩]) st).msgs
            (afterRound
              (execCalls hash toolExec resp.toolCalls
                (msgs ++ [⟨Role.assistant, resp.content, ""⟩]) st).st
              (execCalls hash toolExec resp.toolCalls
                (msgs ++ [⟨Role.assistant, resp.content, ""⟩]) st).hasUseful
              (execCalls hash toolExec resp.toolCalls
                (msgs ++ [⟨Role.assistant, resp.content, ""⟩]) st).hasRepeated)
            (allCalls ++ resp.toolCalls) (usage + resp.usage) (used + 1)
          refine ⟨?_, ?_, ?_⟩ <;>
            simp only [runLoopAux, hr, hie2, Bool.false_eq_true, if_false, hsf2]
          · omega
          · intro r h
            obtain ⟨c, hc1, hc2, hc3⟩ := ih2 r h
            exact ⟨c, hc1, hc2, by omega⟩
          · intro h
            obtain ⟨h1, h2⟩ := ih3 h
            exact ⟨h1, by omega⟩

/-- Claim C4: Ask performs at most 10 provider rounds; an
iteration-exhaustion answer is the last non-empty assistant content with
the incompleteness notice appended (and uses the full budget), and the
fatal max-iterations error arises only when no assistant message in the
final history has content (also at the full budget). -/
theorem c4_theorem (hash : String → String → String) (rounds : Nat → RoundOutcome)
    (toolExec : ToolCall → Str) (msgs : List Msg) :
    (runLoop hash rounds toolExec msgs).roundsUsed ≤ 10 ∧
    (∀ r, (runLoop hash rounds toolExec msgs).result = LoopResult.incomplete r →
       ∃ c, lastAssistantContent (runLoop hash rounds toolExec msgs).msgs = some c ∧
         r.content = c ++ incompleteNote ∧
         (runLoop hash rounds toolExec msgs).roundsUsed = 10) ∧
    ((runLoop hash rounds toolExec msgs).result = LoopResult.fatalMaxIterations →
       lastAssistantContent (runLoop hash rounds toolExec msgs).msgs = none ∧
       (runLoop hash rounds toolExec msgs).roundsUsed = 10) := by
  have h := runLoopAux_spec hash rounds toolExec maxIterations 0 msgs newLoopState [] 0 0
  simpa [runLoop, maxIterations] using h

/-- Closed instance of C4: ten rounds of useful tool calls with no
assistant text exhaust the budget into the fatal max-iterations case. -/
theorem c4_witness :
    lastAssistantContent (runLoop hashEx roundsEx toolUsefulEx []).msgs = none ∧
    (runLoop hashEx roundsEx toolUsefulEx []).roundsUsed = 10 :=
  (c4_theorem hashEx roundsEx toolUsefulEx []).2.2 (by rfl)

theorem runLoopAux_chatError_not_saved (hash : String → String → String)
    (rounds : Nat → RoundOutcome) (toolExec : ToolCall → Str) (fuel : Nat) :
    ∀ (i : Nat) (msgs : List Msg) (st : LoopState) (allCalls : List ToolCall)
      (usage used : Nat) (e : String),
      (runLoopAux hash rounds toolExec fuel i msgs st allCalls usage used).result
          = LoopResult.chatError e →
      (runLoopAux hash rounds toolExec fuel i msgs st allCalls usage used).savedInLoop
          = false := by
  induction fuel with
  | zero =>
    intro i msgs st allCalls usage used e h
    cases hl : lastAssistantContent msgs <;>
      simp only [runLoopAux, hl] at h <;> cases h
  | succ fuel ih =>
    intro i msgs st allCalls usage used e h
    cases hr : rounds i with
    | err e2 =>
      simp only [runLoopAux, hr]
    | ok resp =>
      by_cases hie : resp.toolCalls.isEmpty = true
      · simp only [runLoopAux, hr, hie, if_true] at h
        cases h
      · have hie2 : resp.toolCalls.isEmpty = false := by
          cases h2 : resp.toolCalls.isEmpty
          · rfl
          · exact absurd h2 hie
        by_cases hsf : shouldForce
            (afterRound
              (execCalls hash toolExec resp.toolCalls
                (msgs ++ [⟨Role.assistant, resp.content, ""⟩]) st).st
              (execCalls hash toolExec resp.toolCalls
                (msgs ++ [⟨Role.assistant, resp.content, ""⟩]) st).hasUseful
              (execCalls hash toolExec resp.toolCalls
                (msgs ++ [⟨Role.assistant, resp.content, ""⟩]) st).hasRepeated) = true
        · simp only [runLoopAux, hr, hie2, Bool.false_eq_true, if_false, hsf, if_true] at h
          cases h
        · have hsf2 : shouldForce
              (afterRound
                (execCalls hash toolExec resp.toolCalls
                  (msgs ++ [⟨Role.assistant, resp.content, ""⟩]) st).st
                (execCalls hash toolExec resp.toolCalls
                  (msgs ++ [⟨Role.assistant, resp.content, ""⟩]) st).hasUseful
                (execCalls hash toolExec resp.toolCalls
                  (msgs ++ [⟨Role.assistant, resp.content, ""⟩]) st).hasRepeated) = false := by
            cases h2 : shouldForce _
            · rfl
            · exact absurd h2 hsf
          simp only [runLoopAux, hr, hie2, Bool.false_eq_true, if_false, hsf2] at h ⊢
          exact ih _ _ _ _ _ _ _ h

theorem runLoopAux_msgs_extend (hash : String → String → String)
    (rounds : Nat → RoundOutcome) (toolExec : ToolCall → Str) (fuel : Nat) :
    ∀ (i : Nat) (msgs : List Msg) (st : LoopState) (allCalls : List ToolCall)
      (usage used : Nat),
      ∃ t, (runLoopAux hash rounds toolExec fuel i msgs st allCalls usage used).msgs
          = msgs ++ t := by
  induction fuel with
  | zero =>
    intro i msgs st allCalls usage used
    cases hl : lastAssistantContent msgs <;>
      exact ⟨[], by simp only [runLoopAux, hl, List.append_nil]⟩
  | succ fuel ih =>
    intro i msgs st allCalls usage used
    cases hr : rounds i with
    | err e =>
      exact ⟨[], by simp only [runLoopAux, hr, List.append_nil]⟩
    | ok resp =>
      by_cases hie : resp.toolCalls.isEmpty = true
      · refine ⟨[⟨Role.assistant, resp.content, ""⟩], ?_⟩
        simp only [runLoopAux, hr, hie, if_true]
      · have hie2 : resp.toolCalls.isEmpty = false := by
          cases h2 : resp.toolCalls.isEmpty
          · rfl
          · exact absurd h2 hie
        obtain ⟨t0, ht0⟩ := foldl_execCall_msgs hash toolExec resp.toolCalls
          ⟨msgs ++ [⟨Role.assistant, resp.content, ""⟩], st, false, false⟩
        by_cases hsf : shouldForce
            (afterRound
              (execCalls hash toolExec resp.toolCalls
                (msgs ++ [⟨Role.assistant, resp.content, ""⟩]) st).st
              (execCalls hash toolExec resp.toolCalls
                (msgs ++ [⟨Role.assistant, resp.content, ""⟩]) st).hasUseful
              (execCalls hash toolExec resp.toolCalls
                (msgs ++ [⟨Role.assistant, resp.content, ""⟩]) st).hasRepeated) = true
        · refine ⟨⟨Role.assistant, resp.content, ""⟩ :: t0, ?_⟩
          simp only [runLoopAux, hr, hie2, Bool.false_eq_true, if_false, hsf, if_true]
          unfold execCalls
          rw [ht0]
          simp
        · have hsf2 : shouldForce
              (afterRound
                (execCalls hash toolExec resp.toolCalls
                  (msgs ++ [⟨Role.assistant, resp.content, ""⟩]) st).st
                (execCalls hash toolExec resp.toolCalls
                  (msgs ++ [⟨Role.assistant, resp.content, ""⟩]) st).hasUseful
                (execCalls hash toolExec resp.toolCalls
                  (msgs ++ [⟨Role.assistant, resp.content, ""⟩]) st).hasRepeated) = false := by
            cases h2 : shouldForce _
            · rfl
            · exact absurd h2 hsf
          obtain ⟨t1, ht1⟩ := ih (i + 1)
            (execCalls hash toolExec resp.toolCalls
              (msgs ++ [⟨Role.assistant, resp.content, ""⟩]) st).msgs
            (afterRound
              (execCalls hash toolExec resp.toolCalls
                (msgs ++ [⟨Role.assistant, resp.content, ""⟩]) st).st
              (execCalls hash toolExec resp.toolCalls
                (msgs ++ [⟨Role.assistant, resp.content, ""⟩]) st).hasUseful
              (execCalls hash toolExec resp.toolCalls
                (msgs ++ [⟨Role.assistant, resp.content, ""⟩]) st).hasRepeated)
            (allCalls ++ resp.toolCalls) (usage + resp.usage) (used + 1)
          refine ⟨⟨Role.assistant, resp.content, ""⟩ :: (t0 ++ t1), ?_⟩
          simp only [runLoopAux, hr, hie2, Bool.false_eq_true, if_false, hsf2]
          rw [ht1]
          have : (execCalls hash toolExec resp.toolCalls
              (msgs ++ [⟨Role.assistant, resp.content, ""⟩]) st).msgs
              = (msgs ++ [⟨Role.assistant, resp.content, ""⟩]) ++ t0 := ht0
          rw [this]
          simp

/-- Claim C5 (amended): when a backend/transport error occurs mid-loop,
Ask propagates it to the caller and the in-memory conversation retains
every message appended so far — including this Ask call's user message —
but nothing is persisted through the storage collaborator during this
Ask call (persistence happens only on success or on iteration
exhaustion). -/
theorem c5_amended_theorem (hash : String → String → String)
    (rounds : Nat → RoundOutcome) (toolExec : ToolCall → Str)
    (initMsgs : List Msg) (q : Str) (e : String)
    (herr : (askWithCallback hash rounds toolExec initMsgs q).result
        = LoopResult.chatError e) :
    (askWithCallback hash rounds toolExec initMsgs q).saveEvents = [] ∧
    ∃ t, (askWithCallback hash rounds toolExec initMsgs q).msgs
        = initMsgs ++ (⟨Role.user, q, ""⟩ :: t) := by
  have houter : (askWithCallback hash rounds toolExec initMsgs q).result
      = (runLoop hash rounds toolExec (initMsgs ++ [⟨Role.user, q, ""⟩])).result := by
    simp only [askWithCallback]
    split <;> rfl
  have herr2 : (runLoop hash rounds toolExec (initMsgs ++ [⟨Role.user, q, ""⟩])).result
      = LoopResult.chatError e := by rw [← houter, herr]
  have hns : (runLoop hash rounds toolExec (initMsgs ++ [⟨Role.user, q, ""⟩])).savedInLoop
      = false :=
    runLoopAux_chatError_not_saved hash rounds toolExec maxIterations 0 _ _ _ _ _ e herr2
  have hiserr : isErrorResult
      (runLoop hash rounds toolExec (initMsgs ++ [⟨Role.user, q, ""⟩])).result = true := by
    rw [herr2]; rfl
  obtain ⟨t, ht⟩ := runLoopAux_msgs_extend hash rounds toolExec maxIterations 0
    (initMsgs ++ [⟨Role.user, q, ""⟩]) newLoopState [] 0 0
  constructor
  · simp only [askWithCallback, hiserr, if_true, hns, Bool.false_eq_true, if_false]
  · refine ⟨t, ?_⟩
    have hmsgs : (askWithCallback hash rounds toolExec initMsgs q).msgs
        = (runLoop hash rounds toolExec (initMsgs ++ [⟨Role.user, q, ""⟩])).msgs := by
      simp only [askWithCallback]
      split <;> rfl
    rw [hmsgs]
    have ht2 : (runLoop hash rounds toolExec (initMsgs ++ [⟨Role.user, q, ""⟩])).msgs
        = (initMsgs ++ [⟨Role.user, q, ""⟩]) ++ t := ht
    rw [ht2]
    simp

/-- Counterexample to C5 as stated: a transport failure in the first
round propagates out of Ask, the in-memory conversation was mutated
(the user message is there), yet not one SaveThread call was made — the
conversation is not persisted. -/
theorem c5_counterexample :
    (askWithCallback hashEx roundsErrEx toolEmptyEx [] ("q".toList)).result
        = LoopResult.chatError "network failure" ∧
    (askWithCallback hashEx roundsErrEx toolEmptyEx [] ("q".toList)).saveEvents = [] ∧
    (askWithCallback hashEx roundsErrEx toolEmptyEx [] ("q".toList)).msgs
        = [⟨Role.user, "q".toList, ""⟩] :=
  ⟨rfl, rfl, rfl⟩

/-- Closed instance of the amended C5 at the failing-first-round
oracle. -/
theorem c5_witness :
    (askWithCallback hashEx roundsErrEx toolEmptyEx [] ("q".toList)).saveEvents = [] ∧
    ∃ t, (askWithCallback hashEx roundsErrEx toolEmptyEx [] ("q".toList)).msgs
        = [] ++ (⟨Role.user, "q".toList, ""⟩ :: t) :=
  c5_amended_theorem hashEx roundsErrEx toolEmptyEx [] ("q".toList) "network failure" rfl

theorem foldl_append_block (l : List Str) (init : Str) :
    l.foldl (fun acc r => acc ++ r ++ ("\n\n".toList)) init
      = init ++ l.flatMap (fun r => r ++ ("\n\n".toList)) := by
  induction l generalizing init with
  | nil => simp
  | cons r l ih =>
    rw [List.foldl_cons, ih]
    simp

theorem capResult_length (c : Str) : (capResult c).length ≤ 503 := by
  unfold capResult
  split
  · have h3 : (("...".toList : Str)).length = 3 := rfl
    simp only [List.length_append, List.length_take, h3]
    omega
  · omega

theorem usefulResults_length (msgs : List Msg) :
    ∀ r ∈ usefulResults msgs, r.length ≤ 503 := by
  intro r hr
  unfold usefulResults at hr
  obtain ⟨m, _, heq⟩ := List.mem_filterMap.mp hr
  split at heq
  · cases heq
    exact capResult_length m.content
  · cases heq

/-- Claim C7 (amended): forced completion returns the most recent
non-empty assistant content when one exists; otherwise, when some tool
output longer than 100 characters and not classified no-result exists,
it returns the first up-to-three such outputs (each capped at 500
characters plus an ellipsis, hence at most 503) concatenated between an
introductory line and a trailing note that these are raw search
results; otherwise the fixed nothing-found message. -/
theorem c7_amended_theorem (msgs : List Msg) :
    (∀ c, lastAssistantContent msgs = some c → forceCompletion msgs = c) ∧
    (lastAssistantContent msgs = none → usefulResults msgs = [] →
       forceCompletion msgs = noInfoMsg) ∧
    (lastAssistantContent msgs = none → usefulResults msgs ≠ [] →
       forceCompletion msgs =
         forcedHeader ++
           ((usefulResults msgs).take 3).flatMap (fun r => r ++ ("\n\n".toList)) ++
           forcedFooter ∧
       ∀ r ∈ usefulResults msgs, r.length ≤ 503) := by
  refine ⟨?_, ?_, ?_⟩
  · intro c h
    simp only [forceCompletion, h]
  · intro h h2
    simp only [forceCompletion, h, h2, List.isEmpty_nil, if_true]
  · intro h h2
    refine ⟨?_, usefulResults_length msgs⟩
    have h3 : (usefulResults msgs).isEmpty = false := by
      cases he : usefulResults msgs
      · exact absurd he h2
      · rfl
    simp only [forceCompletion, h, h3, Bool.false_eq_true, if_false]
    rw [foldl_append_block]

set_option maxRecDepth 40000 in
/-- Counterexample to C7 as stated: with no assistant content and a
56-character tool output that is non-empty and classified useful (so
by the claim it should be quoted in the evidence concatenation),
forceCompletion returns the fixed nothing-found message instead — the
code requires outputs longer than 100 characters. -/
theorem c7_counterexample :
    forceCompletion [⟨Role.tool, midToolOutputEx, "1"⟩] = noInfoMsg ∧
    midToolOutputEx ≠ [] ∧
    isEmptyResult midToolOutputEx = false ∧
    strContains noInfoMsg midToolOutputEx = false := by
  refine ⟨rfl, by decide, by decide, by decide⟩

set_option maxRecDepth 40000 in
/-- Closed instance of the amended C7: one 139-character useful tool
output and no assistant content yield the evidence concatenation. -/
theorem c7_witness :
    forceCompletion [⟨Role.tool, longToolOutputEx, "1"⟩] =
      forcedHeader ++
        ((usefulResults [⟨Role.tool, longToolOutputEx, "1"⟩]).take 3).flatMap
          (fun r => r ++ ("\n\n".toList)) ++
        forcedFooter ∧
    ∀ r ∈ usefulResults [⟨Role.tool, longToolOutputEx, "1"⟩], r.length ≤ 503 :=
  (c7_amended_theorem [⟨Role.tool, longToolOutputEx, "1"⟩]).2.2 rfl (by decide)

theorem truncateInMemory_truncated (o : Str) (l : List Str) :
    (truncateInMemory o l).truncated = true := rfl

theorem truncateInMemory_outputPath (o : Str) (l : List Str) :
    (truncateInMemory o l).outputPath = [] := rfl

/-- Claim C9: when the side-channel directory cannot be created or the
file cannot be written, `TruncateOutput` still succeeds with the
in-memory preview alone — no output path — and the registry returns the
truncated content with no file pointer; the Go function returns a nil
error on every path (the model is total). -/
theorem c9_theorem (outputDir threadID toolName : Str) (fs : FsOracle) (out : Str)
    (hdir : outputDir.isEmpty = false)
    (hfail : fs.mkdirOk = false ∨ fs.writeOk = false)
    (hbig : maxOutputLines < (splitNl out).length ∨ maxOutputBytes < out.length) :
    truncateOutput out ⟨outputDir, threadID, toolName⟩ fs
        = truncateInMemory out (splitNl out) ∧
    (truncateOutput out ⟨outputDir, threadID, toolName⟩ fs).outputPath = [] ∧
    registryApplyTruncation outputDir threadID toolName fs out
        = ⟨(truncateInMemory out (splitNl out)).content, true, none⟩ := by
  have hneed : (decide (maxOutputBytes < out.length) ||
      decide (maxOutputLines < (splitNl out).length)) = true := by
    rcases hbig with h | h
    · simp [h]
    · simp [h]
  have h1 : truncateOutput out ⟨outputDir, threadID, toolName⟩ fs
      = truncateInMemory out (splitNl out) := by
    unfold truncateOutput
    simp only [hneed, Bool.not_true, Bool.false_eq_true, if_false]
    rcases hfail with h | h
    · simp [h]
    · cases hmk : fs.mkdirOk
      · simp
      · simp [h]
  refine ⟨h1, ?_, ?_⟩
  · rw [h1, truncateInMemory_outputPath]
  · simp only [registryApplyTruncation, hdir, Bool.false_eq_true, if_false]
    rw [h1]
    simp only [truncateInMemory_truncated, if_true, truncateInMemory_outputPath,
      List.isEmpty_nil]

set_option maxRecDepth 40000 in
/-- Closed instance of C9: a 600-line output with a failing directory
creation degrades to the in-memory preview with no file pointer. -/
theorem c9_witness :
    truncateOutput out600Ex ⟨"outputs".toList, "t1".toList, "grep".toList⟩ fsNoMkdirEx
        = truncateInMemory out600Ex (splitNl out600Ex) ∧
    (truncateOutput out600Ex ⟨"outputs".toList, "t1".toList, "grep".toList⟩
        fsNoMkdirEx).outputPath = [] ∧
    registryApplyTruncation ("outputs".toList) ("t1".toList) ("grep".toList)
        fsNoMkdirEx out600Ex
        = ⟨(truncateInMemory out600Ex (splitNl out600Ex)).content, true, none⟩ :=
  c9_theorem ("outputs".toList) ("t1".toList) ("grep".toList) fsNoMkdirEx out600Ex
    rfl (Or.inl rfl) (Or.inl (by decide))

/-- Claim C10: a zero-byte regular file is classified binary by the
content heuristics (the first read returns zero bytes), so the read
tool's Execute rejects it with the cannot-read-binary-file error instead
of returning an empty file view, and content search silently skips such
a file. -/
theorem c10_theorem :
    (∀ rf : RegFile, rf.bytes = [] →
        readToolBinaryGate rf = Except.error cannotReadBinaryMsg) ∧
    (∀ f : File, f.bytes = [] → fileIsBinary f = true) ∧
    (∀ (re : Str → Bool) (incl : Option (File → Bool)) (maxM maxL : Nat) (f : File),
        f.bytes = [] → goGrep re incl maxM maxL [f] = []) := by
  have hbin : ∀ f : File, f.bytes = [] → fileIsBinary f = true := by
    intro f h
    simp [fileIsBinary, isBinaryFileScan, h]
  refine ⟨?_, hbin, ?_⟩
  · intro rf h
    unfold readToolBinaryGate
    cases hb : rf.binExt
    · simp [h, isBinaryContent]
    · simp
  · intro re incl maxM maxL f h
    have he : grepEligible incl f = false := by
      simp [grepEligible, hbin f h]
    simp [goGrep, collectGrep, he, sortMatchesDesc]

/-- Closed instance of C10 at a zero-byte file. -/
theorem c10_witness :
    readToolBinaryGate emptyRegFileEx = Except.error cannotReadBinaryMsg ∧
    fileIsBinary emptyWalkFileEx = true ∧
    goGrep reAllEx none 100 2000 [emptyWalkFileEx] = [] :=
  ⟨c10_theorem.1 emptyRegFileEx rfl, c10_theorem.2.1 emptyWalkFileEx rfl,
    c10_theorem.2.2 reAllEx none 100 2000 emptyWalkFileEx rfl⟩

set_option maxRecDepth 40000 in
/-- Counterexample to C6 as stated: through a registry with no output
directory configured (the `NewRegistry` default), a 600-line output —
beyond the 500-line ceiling — passes through entirely unchanged with no
annotation. -/
theorem c6_counterexample :
    registryApplyTruncation [] [] [] fsOkEx out600Ex = ⟨out600Ex, false, none⟩ ∧
    maxOutputLines < (splitNl out600Ex).length :=
  ⟨rfl, by decide⟩

theorem truncateOutput_big (out : Str) (cfg : TruncationConfig) (fs : FsOracle)
    (hbig : maxOutputLines < (splitNl out).length ∨ maxOutputBytes < out.length) :
    (truncateOutput out cfg fs).truncated = true ∧
    (truncateOutput out cfg fs).content
        = (truncateInMemory out (splitNl out)).content ++ sideNote fs := by
  have hneed : (decide (maxOutputBytes < out.length) ||
      decide (maxOutputLines < (splitNl out).length)) = true := by
    rcases hbig with h | h
    · simp [h]
    · simp [h]
  unfold truncateOutput
  simp only [hneed, Bool.not_true, Bool.false_eq_true, if_false]
  cases hmk : fs.mkdirOk
  · simp [sideNote, hmk, truncateInMemory_truncated]
  · cases hwr : fs.writeOk
    · simp [sideNote, hmk, hwr, truncateInMemory_truncated]
    · simp [sideNote, hmk, hwr, truncateInMemory_truncated]

theorem truncateInMemory_content_lines (out : Str) (lines : List Str)
    (h1 : maxOutputLines < lines.length)
    (h2 : (joinNl (lines.take maxOutputLines) ++ lineTruncNote lines.length).length
        ≤ maxOutputBytes) :
    (truncateInMemory out lines).content
        = joinNl (lines.take maxOutputLines) ++ lineTruncNote lines.length := by
  have hcond : ¬ (maxOutputBytes <
      (joinNl (lines.take maxOutputLines) ++ lineTruncNote lines.length).length) :=
    Nat.not_lt.mpr h2
  simp only [truncateInMemory]
  rw [if_pos h1, if_neg hcond]

theorem truncateInMemory_content_bytes (out : Str) (lines : List Str)
    (h1 : lines.length ≤ maxOutputLines) (h2 : maxOutputBytes < out.length) :
    (truncateInMemory out lines).content
        = out.take maxOutputBytes ++ byteTruncNote := by
  have hcond : ¬ (maxOutputLines < lines.length) := Nat.not_lt.mpr h1
  simp only [truncateInMemory]
  rw [if_neg hcond, if_pos h2]

/-- Claim C6 (amended): when the registry has an output directory
configured, output exceeding the 500-line or 50 KB ceiling is truncated
— cut at the line ceiling first (with a note stating the total line
count), then at the byte ceiling (with its own note) — and flagged; a
side-channel location note is appended only when the write succeeds.
Output under both ceilings passes through unchanged with no annotation
(and without a configured directory everything passes through
unchanged, per the counterexample). -/
theorem c6_amended_theorem (outputDir threadID toolName : Str) (fs : FsOracle) (out : Str)
    (hdir : outputDir.isEmpty = false) :
    ((splitNl out).length ≤ maxOutputLines → out.length ≤ maxOutputBytes →
       registryApplyTruncation outputDir threadID toolName fs out = ⟨out, false, none⟩) ∧
    (maxOutputLines < (splitNl out).length →
       (joinNl ((splitNl out).take maxOutputLines) ++ lineTruncNote (splitNl out).length).length
           ≤ maxOutputBytes →
       (registryApplyTruncation outputDir threadID toolName fs out).truncatedMeta = true ∧
       (registryApplyTruncation outputDir threadID toolName fs out).output
         = (joinNl ((splitNl out).take maxOutputLines) ++ lineTruncNote (splitNl out).length)
             ++ sideNote fs) ∧
    ((splitNl out).length ≤ maxOutputLines → maxOutputBytes < out.length →
       (registryApplyTruncation outputDir threadID toolName fs out).truncatedMeta = true ∧
       (registryApplyTruncation outputDir threadID toolName fs out).output
         = (out.take maxOutputBytes ++ byteTruncNote) ++ sideNote fs) := by
  refine ⟨?_, ?_, ?_⟩
  · intro h1 h2
    have hneedf : (decide (maxOutputBytes < out.length) ||
        decide (maxOutputLines < (splitNl out).length)) = false := by
      simp [Nat.not_lt.mpr h1, Nat.not_lt.mpr h2]
    have htr : truncateOutput out ⟨outputDir, threadID, toolName⟩ fs = ⟨out, false, []⟩ := by
      unfold truncateOutput
      simp [hneedf]
    simp only [registryApplyTruncation, hdir, Bool.false_eq_true, if_false, htr]
  · intro h1 h2
    obtain ⟨ht, hc⟩ := truncateOutput_big out ⟨outputDir, threadID, toolName⟩ fs (Or.inl h1)
    have hout : (registryApplyTruncation outputDir threadID toolName fs out).output
        = (truncateOutput out ⟨outputDir, threadID, toolName⟩ fs).content := by
      simp only [registryApplyTruncation, hdir, Bool.false_eq_true, if_false, ht, if_true]
    refine ⟨?_, ?_⟩
    · simp only [registryApplyTruncation, hdir, Bool.false_eq_true, if_false, ht, if_true]
    · rw [hout, hc, truncateInMemory_content_lines out (splitNl out) h1 h2]
  · intro h1 h2
    obtain ⟨ht, hc⟩ := truncateOutput_big out ⟨outputDir, threadID, toolName⟩ fs (Or.inr h2)
    have hout : (registryApplyTruncation outputDir threadID toolName fs out).output
        = (truncateOutput out ⟨outputDir, threadID, toolName⟩ fs).content := by
      simp only [registryApplyTruncation, hdir, Bool.false_eq_true, if_false, ht, if_true]
    refine ⟨?_, ?_⟩
    · simp only [registryApplyTruncation, hdir, Bool.false_eq_true, if_false, ht, if_true]
    · rw [hout, hc, truncateInMemory_content_bytes out (splitNl out) h1 h2]

set_option maxRecDepth 100000 in
/-- Closed instance of the amended C6: with a configured directory, the
600-line output is cut at 500 lines and annotated with the total line
count and the saved location. -/
theorem c6_witness :
    (registryApplyTruncation ("outputs".toList) ("t1".toList) ("grep".toList)
        fsOkEx out600Ex).truncatedMeta = true ∧
    (registryApplyTruncation ("outputs".toList) ("t1".toList) ("grep".toList)
        fsOkEx out600Ex).output
      = (joinNl ((splitNl out600Ex).take maxOutputLines) ++
          lineTruncNote (splitNl out600Ex).length) ++ sideNote fsOkEx :=
  (c6_amended_theorem ("outputs".toList) ("t1".toList) ("grep".toList) fsOkEx out600Ex
    rfl).2.1 (by decide) (by decide)

/-- Counterexample to C1 as stated: three files `a.go` (oldest), `b.go`
(mid), `c.go` (newest), all matching, cap 2, in lexical traversal
order: both goGrep and goGlob return `{b.go, a.go}` — the walk stopped
at the cap before ever visiting the newest file, so the claimed set
`{c.go, b.go}` is not returned. -/
theorem c1_counterexample :
    ((goGrep reAllEx none 2 2000 treeAbcEx).all fun m => decide (m.path ≠ "c.go")) = true ∧
    (∃ m ∈ goGrep reAllEx none 2 2000 treeAbcEx, m.path = "a.go") ∧
    ((goGlob patAllEx 2 treeAbcEx).all fun fi => decide (fi.path ≠ "c.go")) = true ∧
    (∃ fi ∈ goGlob patAllEx 2 treeAbcEx, fi.path = "a.go") := by
  refine ⟨by decide, ⟨⟨"a.go", 1, "foo alpha".toList, 1⟩, by decide, rfl⟩,
    by decide, ⟨⟨"a.go", 1⟩, by decide, rfl⟩⟩

/-- Claim C1 (amended): content search and file-name search return
results sorted by modification time descending and within the cap, but
traversal stops once the collected matches reach the cap, so the cap
keeps the newest among the matches collected up to that point — the
first files encountered in traversal order — not the globally newest;
on the three-file example with cap 2 the result is `{b.go, a.go}`
sorted newest-first. -/
theorem c1_amended_theorem (re : Str → Bool) (incl : Option (File → Bool))
    (maxMatches maxLineLength : Nat) (tree : List File)
    (pat : File → Bool) (maxFiles : Nat)
    (hM : maxMatches ≠ 0) (hF : maxFiles ≠ 0) :
    (goGrep re incl maxMatches maxLineLength tree).length ≤ maxMatches ∧
    List.Sorted matchNewer (goGrep re incl maxMatches maxLineLength tree) ∧
    (goGlob pat maxFiles tree).length ≤ maxFiles ∧
    List.Sorted fileNewer (goGlob pat maxFiles tree) ∧
    goGrep reAllEx none 2 2000 treeAbcEx =
      [⟨"b.go", 1, "foo beta".toList, 2⟩, ⟨"a.go", 1, "foo alpha".toList, 1⟩] ∧
    goGlob patAllEx 2 treeAbcEx = [⟨"b.go", 2⟩, ⟨"a.go", 1⟩] := by
  have hM' : (if maxMatches = 0 then 100 else maxMatches) = maxMatches := if_neg hM
  have hF' : (if maxFiles = 0 then 100 else maxFiles) = maxFiles := if_neg hF
  refine ⟨?_, ?_, ?_, ?_, by decide, by decide⟩
  · simp only [goGrep, hM']
    exact List.length_take_le _ _
  · simp only [goGrep, sortMatchesDesc]
    exact (List.sorted_insertionSort matchNewer _).sublist (List.take_sublist _ _)
  · simp only [goGlob, hF']
    exact List.length_take_le _ _
  · simp only [goGlob, sortFilesDesc]
    exact (List.sorted_insertionSort fileNewer _).sublist (List.take_sublist _ _)

/-- Closed instance of the amended C1 at the three-file example. -/
theorem c1_witness :
    (goGrep reAllEx none 2 2000 treeAbcEx).length ≤ 2 ∧
    List.Sorted matchNewer (goGrep reAllEx none 2 2000 treeAbcEx) ∧
    (goGlob patAllEx 2 treeAbcEx).length ≤ 2 ∧
    List.Sorted fileNewer (goGlob patAllEx 2 treeAbcEx) ∧
    goGrep reAllEx none 2 2000 treeAbcEx =
      [⟨"b.go", 1, "foo beta".toList, 2⟩, ⟨"a.go", 1, "foo alpha".toList, 1⟩] ∧
    goGlob patAllEx 2 treeAbcEx = [⟨"b.go", 2⟩, ⟨"a.go", 1⟩] :=
  c1_amended_theorem reAllEx none 2 2000 treeAbcEx patAllEx 2 (by decide) (by decide)

theorem collectGrep_all (re : Str → Bool) (incl : Option (File → Bool))
    (maxLen cap : Nat) :
    ∀ (fs : List File) (acc : List Match),
      acc.length + (eligibleMatches re incl maxLen fs).length ≤ cap →
      collectGrep re incl maxLen cap fs acc = acc ++ eligibleMatches re incl maxLen fs := by
  intro fs
  induction fs with
  | nil =>
    intro acc _
    simp [collectGrep, eligibleMatches]
  | cons f fs ih =>
    intro acc h
    by_cases he : grepEligible incl f = true
    · have hem : eligibleMatches re incl maxLen (f :: fs)
          = grepFile re maxLen f ++ eligibleMatches re incl maxLen fs := by
        simp [eligibleMatches, he]
      rw [hem] at h
      by_cases hstop : cap ≤ (acc ++ grepFile re maxLen f).length
      · have hnil : eligibleMatches re incl maxLen fs = [] := by
          apply List.length_eq_zero.mp
          simp only [List.length_append] at h hstop
          omega
        simp only [collectGrep, he, if_true, hstop, hem, hnil, List.append_nil,
          List.append_assoc]
      · have hrec := ih (acc ++ grepFile re maxLen f)
          (by simp only [List.length_append] at h ⊢; omega)
        simp only [collectGrep, he, if_true, hstop, if_false, hrec, hem,
          List.append_assoc]
    · have he2 : grepEligible incl f = false := by
        cases hb : grepEligible incl f
        · rfl
        · exact absurd hb he
      have hem : eligibleMatches re incl maxLen (f :: fs)
          = eligibleMatches re incl maxLen fs := by
        simp [eligibleMatches, he2]
      rw [hem] at h
      simp only [collectGrep, he2, Bool.false_eq_true, if_false, ih acc h, hem]

theorem collectRg_all (re : Str → Bool) (incl : Option (File → Bool))
    (maxLen cap : Nat) :
    ∀ (fs : List File) (acc : List Match),
      acc.length + (rgEligibleMatches re incl maxLen fs).length ≤ cap →
      collectRg re incl maxLen cap fs acc = acc ++ rgEligibleMatches re incl maxLen fs := by
  intro fs
  induction fs with
  | nil =>
    intro acc _
    simp [collectRg, rgEligibleMatches]
  | cons f fs ih =>
    intro acc h
    by_cases he : rgGrepEligible incl f = true
    · have hem : rgEligibleMatches re incl maxLen (f :: fs)
          = grepFile re maxLen f ++ rgEligibleMatches re incl maxLen fs := by
        simp [rgEligibleMatches, he]
      rw [hem] at h
      have htake : (grepFile re maxLen f).take (cap - acc.length) = grepFile re maxLen f := by
        apply List.take_of_length_le
        simp only [List.length_append] at h
        omega
      by_cases hstop : cap ≤ (acc ++ grepFile re maxLen f).length
      · have hnil : rgEligibleMatches re incl maxLen fs = [] := by
          apply List.length_eq_zero.mp
          simp only [List.length_append] at h hstop
          omega
        simp only [collectRg, he, if_true, htake, hstop, hem, hnil, List.append_nil,
          List.append_assoc]
      · have hrec := ih (acc ++ grepFile re maxLen f)
          (by simp only [List.length_append] at h ⊢; omega)
        simp only [collectRg, he, if_true, htake, hstop, if_false, hrec, hem,
          List.append_assoc]
    · have he2 : rgGrepEligible incl f = false := by
        cases hb : rgGrepEligible incl f
        · rfl
        · exact absurd hb he
      have hem : rgEligibleMatches re incl maxLen (f :: fs)
          = rgEligibleMatches re incl maxLen fs := by
        simp [rgEligibleMatches, he2]
      rw [hem] at h
      simp only [collectRg, he2, Bool.false_eq_true, if_false, ih acc h, hem]

theorem collectGlob_all (pat : File → Bool) (cap : Nat) :
    ∀ (fs : List File) (acc : List FileInfo),
      acc.length + (eligibleFiles pat fs).length ≤ cap →
      collectGlob pat cap fs acc = acc ++ eligibleFiles pat fs := by
  intro fs
  induction fs with
  | nil =>
    intro acc _
    simp [collectGlob, eligibleFiles]
  | cons f fs ih =>
    intro acc h
    by_cases he : globEligible pat f = true
    · have hem : eligibleFiles pat (f :: fs)
          = [(⟨f.path, f.modTime⟩ : FileInfo)] ++ eligibleFiles pat fs := by
        simp [eligibleFiles, he]
      rw [hem] at h
      by_cases hstop : cap ≤ (acc ++ [(⟨f.path, f.modTime⟩ : FileInfo)]).length
      · have hnil : eligibleFiles pat fs = [] := by
          apply List.length_eq_zero.mp
          simp only [List.length_append, List.length_singleton] at h hstop
          omega
        simp only [collectGlob, he, if_true, hstop, hem, hnil, List.append_nil,
          List.append_assoc]
      · have hrec := ih (acc ++ [⟨f.path, f.modTime⟩])
          (by simp only [List.length_append, List.length_singleton] at h ⊢
              omega)
        simp only [collectGlob, he, if_true, hstop, if_false, hrec, hem,
          List.append_assoc]
    · have he2 : globEligible pat f = false := by
        cases hb : globEligible pat f
        · rfl
        · exact absurd hb he
      have hem : eligibleFiles pat (f :: fs) = eligibleFiles pat fs := by
        simp [eligibleFiles, he2]
      rw [hem] at h
      simp only [collectGlob, he2, Bool.false_eq_true, if_false, ih acc h, hem]

theorem collectRgGlob_all (pat : File → Bool) (cap : Nat) :
    ∀ (fs : List File) (acc : List FileInfo),
      acc.length + (rgEligibleFiles pat fs).length ≤ cap →
      collectRgGlob pat cap fs acc = acc ++ rgEligibleFiles pat fs := by
  intro fs
  induction fs with
  | nil =>
    intro acc _
    simp [collectRgGlob, rgEligibleFiles]
  | cons f fs ih =>
    intro acc h
    by_cases he : rgGlobEligible pat f = true
    · have hem : rgEligibleFiles pat (f :: fs)
          = [(⟨f.path, f.modTime⟩ : FileInfo)] ++ rgEligibleFiles pat fs := by
        simp [rgEligibleFiles, he]
      rw [hem] at h
      by_cases hstop : cap ≤ (acc ++ [(⟨f.path, f.modTime⟩ : FileInfo)]).length
      · have hnil : rgEligibleFiles pat fs = [] := by
          apply List.length_eq_zero.mp
          simp only [List.length_append, List.length_singleton] at h hstop
          omega
        simp only [collectRgGlob, he, if_true, hstop, hem, hnil, List.append_nil,
          List.append_assoc]
      · have hrec := ih (acc ++ [⟨f.path, f.modTime⟩])
          (by simp only [List.length_append, List.length_singleton] at h ⊢
              omega)
        simp only [collectRgGlob, he, if_true, hstop, if_false, hrec, hem,
          List.append_assoc]
    · have he2 : rgGlobEligible pat f = false := by
        cases hb : rgGlobEligible pat f
        · rfl
        · exact absurd hb he
      have hem : rgEligibleFiles pat (f :: fs) = rgEligibleFiles pat fs := by
        simp [rgEligibleFiles, he2]
      rw [hem] at h
      simp only [collectRgGlob, he2, Bool.false_eq_true, if_false, ih acc h, hem]

theorem binaryAgreed_verdict (f : File) (h : binaryAgreed f = true) :
    fileIsBinary f = rgFileIsBinary f := by
  unfold binaryAgreed at h
  rw [Bool.or_eq_true] at h
  rcases h with h | h
  · simp only [Bool.and_eq_true, Bool.not_eq_true'] at h
    obtain ⟨⟨hext, hne⟩, hnull⟩ := h
    have hmem : ∀ b ∈ f.bytes, (b == 0) = false := by
      intro b hb
      have := List.any_eq_false.mp hnull b hb
      simpa using this
    have hscan : isBinaryFileScan f.bytes = false := by
      unfold isBinaryFileScan
      have hchunk : (f.bytes.take 512).isEmpty = false := by
        have hnn : f.bytes.take 512 ≠ [] := by
          intro hc
          rcases List.take_eq_nil_iff.mp hc with h0 | h0
          · exact absurd h0 (by decide)
          · rw [h0] at hne
            simp at hne
        cases hc : f.bytes.take 512
        · exact absurd hc hnn
        · rfl
      simp only [hchunk, Bool.false_eq_true, if_false]
      rw [List.any_eq_false]
      intro b hb
      simp [hmem b (List.mem_of_mem_take hb)]
    simp [fileIsBinary, rgFileIsBinary, hext, hscan, hnull]
  · obtain ⟨b, hb, hpb⟩ := List.any_eq_true.mp h
    have hscan : isBinaryFileScan f.bytes = true := by
      unfold isBinaryFileScan
      have hchunk : (f.bytes.take 512).isEmpty = false := by
        cases hc : f.bytes.take 512
        · rw [hc] at hb
          cases hb
        · rfl
      simp only [hchunk, Bool.false_eq_true, if_false]
      exact h
    have hrg : rgFileIsBinary f = true := by
      unfold rgFileIsBinary
      rw [List.any_eq_true]
      exact ⟨b, List.mem_of_mem_take hb, hpb⟩
    simp [fileIsBinary, hscan, hrg]

theorem grepEligible_eq_rg (incl : Option (File → Bool)) (f : File)
    (h : f.hidden = false) (ha : binaryAgreed f = true) :
    grepEligible incl f = rgGrepEligible incl f := by
  simp [grepEligible, rgGrepEligible, h, binaryAgreed_verdict f ha]

theorem globEligible_eq_rg (pat : File → Bool) (f : File)
    (h : f.hidden = false) : globEligible pat f = rgGlobEligible pat f := by
  simp [globEligible, rgGlobEligible, h]

/-- Counterexample to C2 as stated: on a tree holding one hidden file
with a matching line, the in-process fallback returns nothing (hidden
entries are skipped) while the delegated ripgrep path — invoked with
`--hidden` — returns the match; likewise for file-name search. And on a
tree holding one plain-text file with a denylisted extension
(`notes.dat`), the fallback's extension denylist skips it while
ripgrep, whose binary detection is content-only, returns its match.
The two paths are not observably equivalent. -/
theorem c2_counterexample :
    goGrep reAllEx none 100 2000 [hiddenFileEx] = [] ∧
    ripgrepGrep reAllEx none 100 2000 [hiddenFileEx]
      = [⟨".env", 1, "SECRET_TOKEN=abcdef0123456789".toList, 5⟩] ∧
    goGlob patAllEx 100 [hiddenFileEx] = [] ∧
    ripgrepGlob patAllEx 100 [hiddenFileEx] = [⟨".env", 5⟩] ∧
    goGrep reAllEx none 100 2000 [datFileEx] = [] ∧
    ripgrepGrep reAllEx none 100 2000 [datFileEx]
      = [⟨"notes.dat", 1, "note foo".toList, 6⟩] :=
  ⟨rfl, rfl, rfl, rfl, rfl, rfl⟩

/-- Claim C2 (amended): the delegated path is not observably equivalent
to the fallback — it includes hidden entries, which the fallback
excludes, and it has no extension denylist, so it searches text files
the fallback's denylist skips (see the counterexample; the `--follow`
flag can further enlarge the visited set through symlinks). The
equivalence that does hold: on trees free of hidden entries, whose
files' binary verdicts coincide on the two paths (plainly text files,
or files with a NUL in the first 512 bytes), whose eligible results fit
within the cap, and when the delegated process visits exactly the
walked file set (in any emission order), the two paths return the same
set of matches (respectively hits), each ranked newest-first. -/
theorem c2_amended_theorem (re : Str → Bool) (incl : Option (File → Bool))
    (maxMatches maxLineLength : Nat) (tree emitted : List File)
    (pat : File → Bool) (maxFiles : Nat)
    (hM : maxMatches ≠ 0) (hL : maxLineLength ≠ 0) (hF : maxFiles ≠ 0)
    (hperm : emitted.Perm tree)
    (hnohid : ∀ f ∈ tree, f.hidden = false)
    (hagree : ∀ f ∈ tree, binaryAgreed f = true)
    (hcap : (eligibleMatches re incl maxLineLength tree).length ≤ maxMatches)
    (hcapg : (eligibleFiles pat tree).length ≤ maxFiles) :
    (goGrep re incl maxMatches maxLineLength tree).Perm
        (ripgrepGrep re incl maxMatches maxLineLength emitted) ∧
    List.Sorted matchNewer (goGrep re incl maxMatches maxLineLength tree) ∧
    List.Sorted matchNewer (ripgrepGrep re incl maxMatches maxLineLength emitted) ∧
    (goGlob pat maxFiles tree).Perm (ripgrepGlob pat maxFiles emitted) ∧
    List.Sorted fileNewer (goGlob pat maxFiles tree) ∧
    List.Sorted fileNewer (ripgrepGlob pat maxFiles emitted) := by
  have hM' : (if maxMatches = 0 then 100 else maxMatches) = maxMatches := if_neg hM
  have hL' : (if maxLineLength = 0 then 2000 else maxLineLength) = maxLineLength := if_neg hL
  have hF' : (if maxFiles = 0 then 100 else maxFiles) = maxFiles := if_neg hF
  have hfeq : tree.filter (rgGrepEligible incl) = tree.filter (grepEligible incl) :=
    List.filter_congr
      (fun f hf => (grepEligible_eq_rg incl f (hnohid f hf) (hagree f hf)).symm)
  have hpermM : (rgEligibleMatches re incl maxLineLength emitted).Perm
      (eligibleMatches re incl maxLineLength tree) := by
    unfold rgEligibleMatches eligibleMatches
    rw [← hfeq]
    exact List.Perm.flatMap_right _ (hperm.filter _)
  have hcapRg : (rgEligibleMatches re incl maxLineLength emitted).length ≤ maxMatches := by
    rw [hpermM.length_eq]
    exact hcap
  have hgo : goGrep re incl maxMatches maxLineLength tree
      = List.insertionSort matchNewer (eligibleMatches re incl maxLineLength tree) := by
    simp only [goGrep, hM', hL']
    rw [collectGrep_all re incl maxLineLength maxMatches tree []
      (by simpa using hcap)]
    rw [List.nil_append, sortMatchesDesc]
    apply List.take_of_length_le
    rw [(List.perm_insertionSort matchNewer _).length_eq]
    exact hcap
  have hrg : ripgrepGrep re incl maxMatches maxLineLength emitted
      = List.insertionSort matchNewer (rgEligibleMatches re incl maxLineLength emitted) := by
    simp only [ripgrepGrep, hM', hL']
    rw [collectRg_all re incl maxLineLength maxMatches emitted []
      (by simpa using hcapRg)]
    rw [List.nil_append, sortMatchesDesc]
  have hfeqG : tree.filter (rgGlobEligible pat) = tree.filter (globEligible pat) :=
    List.filter_congr (fun f hf => (globEligible_eq_rg pat f (hnohid f hf)).symm)
  have hpermF : (rgEligibleFiles pat emitted).Perm (eligibleFiles pat tree) := by
    unfold rgEligibleFiles eligibleFiles
    rw [← hfeqG]
    exact (hperm.filter _).map _
  have hcapRgG : (rgEligibleFiles pat emitted).length ≤ maxFiles := by
    rw [hpermF.length_eq]
    exact hcapg
  have hgoG : goGlob pat maxFiles tree
      = List.insertionSort fileNewer (eligibleFiles pat tree) := by
    simp only [goGlob, hF']
    rw [collectGlob_all pat maxFiles tree [] (by simpa using hcapg)]
    rw [List.nil_append, sortFilesDesc]
    apply List.take_of_length_le
    rw [(List.perm_insertionSort fileNewer _).length_eq]
    exact hcapg
  have hrgG : ripgrepGlob pat maxFiles emitted
      = List.insertionSort fileNewer (rgEligibleFiles pat emitted) := by
    simp only [ripgrepGlob, hF']
    rw [collectRgGlob_all pat maxFiles emitted [] (by simpa using hcapRgG)]
    rw [List.nil_append, sortFilesDesc]
  refine ⟨?_, ?_, ?_, ?_, ?_, ?_⟩
  · rw [hgo, hrg]
    exact ((List.perm_insertionSort matchNewer _).trans
      ((hpermM.symm).trans (List.perm_insertionSort matchNewer _).symm))
  · rw [hgo]
    exact List.sorted_insertionSort matchNewer _
  · rw [hrg]
    exact List.sorted_insertionSort matchNewer _
  · rw [hgoG, hrgG]
    exact ((List.perm_insertionSort fileNewer _).trans
      ((hpermF.symm).trans (List.perm_insertionSort fileNewer _).symm))
  · rw [hgoG]
    exact List.sorted_insertionSort fileNewer _
  · rw [hrgG]
    exact List.sorted_insertionSort fileNewer _

/-- Closed instance of the amended C2: a hidden-free two-file tree and a
reversed ripgrep emission order give the same sets, ranked
newest-first. -/
theorem c2_witness :
    (goGrep reAllEx none 100 2000 [aFileEx, bFileEx]).Perm
        (ripgrepGrep reAllEx none 100 2000 [bFileEx, aFileEx]) ∧
    List.Sorted matchNewer (goGrep reAllEx none 100 2000 [aFileEx, bFileEx]) ∧
    List.Sorted matchNewer (ripgrepGrep reAllEx none 100 2000 [bFileEx, aFileEx]) ∧
    (goGlob patAllEx 100 [aFileEx, bFileEx]).Perm (ripgrepGlob patAllEx 100 [bFileEx, aFileEx]) ∧
    List.Sorted fileNewer (goGlob patAllEx 100 [aFileEx, bFileEx]) ∧
    List.Sorted fileNewer (ripgrepGlob patAllEx 100 [bFileEx, aFileEx]) :=
  c2_amended_theorem reAllEx none 100 2000 [aFileEx, bFileEx] [bFileEx, aFileEx]
    patAllEx 100 (by decide) (by decide) (by decide) (by decide) (by decide) (by decide)
    (by decide) (by decide)

end Btcx
